import Mathlib

/-!
# passmed2anki: the content script's detection and affordance engine

A shallow embedding of `src/contentScript.js`.

* JavaScript strings are lists of UTF-16 code units (`JsString`), so that
  `length` and `slice` count what the source counts.
* The document is the list of its attached elements in tree order, each with
  the reference of its parent element.  What the browser computes for an
  element (computed style, client rectangles, `innerText`, `innerHTML`) is
  carried on the element as an observation.
* The mutable `STATE` object of the script is the record `State`, threaded
  explicitly through the functions that read or write it.
-/

namespace Passmed2Anki

/-! ## JavaScript strings -/

/-- A JavaScript string, as its sequence of UTF-16 code units. -/
abbrev JsString := List Nat

/-- The code units of an ASCII literal of the source. -/
def js (s : String) : JsString := s.toList.map Char.toNat

/-- Code units removed by `String.prototype.trim`: the WhiteSpace and
LineTerminator productions of ECMAScript. -/
def isTrimSpace (c : Nat) : Bool :=
  c == 9 || c == 10 || c == 11 || c == 12 || c == 13 || c == 32 || c == 160 ||
  c == 5760 || (8192 ≤ c && c ≤ 8202) || c == 8232 || c == 8233 || c == 8239 ||
  c == 8287 || c == 12288 || c == 65279

/-- The method `String.prototype.trim`. -/
def trim (s : JsString) : JsString :=
  ((s.dropWhile isTrimSpace).reverse.dropWhile isTrimSpace).reverse

/-- The method `String.prototype.includes`. -/
def includes : JsString → JsString → Bool
  | [], needle => needle.isEmpty
  | c :: cs, needle => needle.isPrefixOf (c :: cs) || includes cs needle

/-- Lower-casing of one code unit, as far as a search for an ASCII needle can
see it.  `A`-`Z` go to `a`-`z`; the two code units outside ASCII whose lower
case contains an ASCII letter are U+0130 (to `i` followed by U+0307) and
U+212A (to `k`).  Every other code unit is kept: its lower case lies outside
ASCII, so it breaks a run of ASCII units just as the unit itself does. -/
def lowerUnit (c : Nat) : List Nat :=
  if 65 ≤ c ∧ c ≤ 90 then [c + 32]
  else if c = 304 then [105, 775]
  else if c = 8490 then [107]
  else [c]

/-- The method `String.prototype.toLowerCase`, for the searches of the script
whose needle is an ASCII literal (`greenbar.png`, `solid red`, `question`,
...): `includes (toLowerCase s) needle` is then what the script computes.
Outside ASCII the result is not the lower-cased string; the scanner, which
accepts any keyword list, takes the method of the platform as a parameter. -/
def toLowerCase (s : JsString) : JsString := s.flatMap lowerUnit

/-- The method `String.prototype.split` with a one-unit separator. -/
def split (sep : Nat) : JsString → List JsString
  | [] => [[]]
  | c :: cs =>
    if c = sep then [] :: split sep cs
    else
      match split sep cs with
      | [] => [[c]]
      | p :: ps => (c :: p) :: ps

/-- The method `Array.prototype.join`. -/
def join (sep : JsString) : List JsString → JsString
  | [] => []
  | [p] => p
  | p :: q :: rest => p ++ sep ++ join sep (q :: rest)

/-- Output of a pending run of `n` line feeds for `replace(/\n{3,}/g, "\n\n")`. -/
def flushNewlines (n : Nat) : JsString :=
  if 3 ≤ n then [10, 10] else List.replicate n 10

/-- Scanner for `replace(/\n{3,}/g, "\n\n")`; `n` counts the line feeds of the
run being read. -/
def collapseNewlinesFrom : Nat → JsString → JsString
  | n, [] => flushNewlines n
  | n, c :: cs =>
    if c = 10 then collapseNewlinesFrom (n + 1) cs
    else flushNewlines n ++ c :: collapseNewlinesFrom 0 cs

/-- Output of a pending run of blanks for `replace(/[ \t]{2,}/g, " ")`. -/
def flushBlanks (run : JsString) : JsString :=
  if 2 ≤ run.length then [32] else run

/-- Scanner for `replace(/[ \t]{2,}/g, " ")`; `run` holds the blanks of the run
being read. -/
def collapseBlanksFrom : JsString → JsString → JsString
  | run, [] => flushBlanks run
  | run, c :: cs =>
    if c = 32 ∨ c = 9 then collapseBlanksFrom (run ++ [c]) cs
    else flushBlanks run ++ c :: collapseBlanksFrom [] cs

/-! ## Elements and documents -/

/-- An element of the page, with what the browser reports about it. -/
structure Element where
  /-- Identity of the DOM object. -/
  ref : Nat
  /-- Reference of `parentElement`, `none` for the root element or a
  parentless node. -/
  parent : Option Nat
  /-- Local name, lower case. -/
  tag : JsString
  /-- Content attributes, names in lower case. -/
  attrs : List (JsString × JsString)
  /-- Computed style property `display`. -/
  display : JsString
  /-- Computed style property `visibility`. -/
  visibility : JsString
  /-- Computed style property `opacity`. -/
  opacity : JsString
  /-- Value of `getClientRects().length`. -/
  clientRects : Nat
  /-- Value of `innerText`. -/
  innerText : JsString
  /-- Value of `innerHTML`. -/
  innerHTML : JsString
deriving DecidableEq, Repr

/-- The document: its attached elements in tree order, and the reference of
`document.body`.  The script's passes run once the document is parsed, when
the body exists. -/
structure Document where
  nodes : List Element
  body : Nat
deriving DecidableEq, Repr

/-- The method `getAttribute`. -/
def Element.getAttribute (e : Element) (name : JsString) : Option JsString :=
  (e.attrs.find? fun a => a.1 == name).map Prod.snd

/-- ASCII whitespace, which separates the tokens of a `class` attribute. -/
def isAsciiSpace (c : Nat) : Bool :=
  c == 9 || c == 10 || c == 12 || c == 13 || c == 32

/-- Tokens of a whitespace-separated attribute value; `cur` is the token being
read. -/
def tokensFrom : JsString → JsString → List JsString
  | cur, [] => if cur.isEmpty then [] else [cur]
  | cur, c :: cs =>
    if isAsciiSpace c then
      (if cur.isEmpty then tokensFrom [] cs else cur :: tokensFrom [] cs)
    else tokensFrom (cur ++ [c]) cs

/-- The property `classList`. -/
def Element.classList (e : Element) : List JsString :=
  tokensFrom [] ((e.getAttribute (js "class")).getD [])

/-- The element with a given reference. -/
def Document.byRef (d : Document) (r : Nat) : Option Element :=
  d.nodes.find? fun e => e.ref == r

/-- The property `parentElement`, read in the document. -/
def parentElement (d : Document) (e : Element) : Option Element :=
  match e.parent with
  | none => none
  | some p => d.byRef p

/-- Ancestors of an element, nearest first, following `parentElement` at most
`fuel` times. -/
def ancestorsFuel (d : Document) : Nat → Element → List Element
  | 0, _ => []
  | fuel + 1, e =>
    match parentElement d e with
    | none => []
    | some p => p :: ancestorsFuel d fuel p

/-- Ancestors of an element, nearest first.  A chain of distinct elements of
the document is no longer than the document. -/
def ancestors (d : Document) (e : Element) : List Element :=
  ancestorsFuel d d.nodes.length e

/-- Whether `e` lies strictly below the element with reference `root`. -/
def isDescendantOf (d : Document) (root : Nat) (e : Element) : Bool :=
  (ancestors d e).any fun a => a.ref == root

/-! ## Selectors -/

/-- An attribute test of a selector. -/
inductive AttrSel where
  /-- The form `[name]`. -/
  | has (name : JsString)
  /-- The form `[name='value']`. -/
  | eq (name value : JsString)
  /-- The form `[name^='value']`. -/
  | startsWith (name value : JsString)
  /-- The form `[name*='value']`. -/
  | contains (name value : JsString)
deriving DecidableEq, Repr

/-- A compound selector: optional type, optional id, classes, attribute
tests. -/
structure Compound where
  tag : Option JsString
  id : Option JsString
  classes : List JsString
  attrs : List AttrSel
deriving DecidableEq, Repr

/-- A complex selector: compounds joined by the descendant combinator,
outermost first. -/
abbrev Complex := List Compound

/-- A selector list: complex selectors separated by commas. -/
abbrev Selector := List Complex

/-- Whether an element passes an attribute test. -/
def AttrSel.test (e : Element) : AttrSel → Bool
  | .has name => (e.getAttribute name).isSome
  | .eq name value => e.getAttribute name == some value
  | .startsWith name value =>
    match e.getAttribute name with
    | none => false
    | some v => !value.isEmpty && value.isPrefixOf v
  | .contains name value =>
    match e.getAttribute name with
    | none => false
    | some v => !value.isEmpty && includes v value

/-- Whether an element matches a compound selector. -/
def matchesCompound (c : Compound) (e : Element) : Bool :=
  (match c.tag with
    | none => true
    | some t => e.tag == t) &&
  (match c.id with
    | none => true
    | some i => e.getAttribute (js "id") == some i) &&
  c.classes.all (fun k => e.classList.contains k) &&
  c.attrs.all (fun a => a.test e)

/-- Whether the nearest-first ancestor list `anc` supplies, going outwards, a
match for each compound of `cs` (the compounds left of the subject, innermost
first). -/
def matchChain : List Compound → List Element → Bool
  | [], _ => true
  | _ :: _, [] => false
  | c :: cs, a :: anc =>
    if matchesCompound c a then matchChain cs anc else matchChain (c :: cs) anc

/-- Whether an element matches a complex selector. -/
def matchesComplex (d : Document) (cx : Complex) (e : Element) : Bool :=
  match cx.reverse with
  | [] => false
  | c :: cs => matchesCompound c e && matchChain cs (ancestors d e)

/-- Whether an element matches a selector list. -/
def matchesSelector (d : Document) (sel : Selector) (e : Element) : Bool :=
  sel.any fun cx => matchesComplex d cx e

/-- The call `document.querySelectorAll(sel)`: matches in tree order. -/
def querySelectorAll (d : Document) (sel : Selector) : List Element :=
  d.nodes.filter (matchesSelector d sel)

/-- The call `document.querySelector(sel)`. -/
def querySelector (d : Document) (sel : Selector) : Option Element :=
  (querySelectorAll d sel).head?

/-- The call `root.querySelectorAll(sel)` on the element with reference
`root`: matching descendants of it, in tree order. -/
def querySelectorAllIn (d : Document) (root : Nat) (sel : Selector) : List Element :=
  d.nodes.filter fun e => isDescendantOf d root e && matchesSelector d sel e

/-- The call `root.querySelector(sel)`. -/
def querySelectorIn (d : Document) (root : Nat) (sel : Selector) : Option Element :=
  (querySelectorAllIn d root sel).head?

/-- The call `el.closest(sel)` for a compound selector. -/
def closest (d : Document) (el : Element) (c : Compound) : Option Element :=
  (el :: ancestors d el).find? (matchesCompound c)

/-- Selector `#i`. -/
def selId (i : String) : Compound := ⟨none, some (js i), [], []⟩

/-- Selector `.k1.k2...`. -/
def selClasses (ks : List String) : Compound := ⟨none, none, ks.map js, []⟩

/-- Selector `t`. -/
def selTag (t : String) : Compound := ⟨some (js t), none, [], []⟩

/-- Selector `t.k`. -/
def selTagClass (t k : String) : Compound := ⟨some (js t), none, [js k], []⟩

/-- Selector made of one attribute test. -/
def selAttr (a : AttrSel) : Compound := ⟨none, none, [], [a]⟩

/-- The list `SELECTORS.question`. -/
def SELECTORS_question : List Selector :=
  [ [[selId "question_only"]],
    [[selId "div_question", selId "question_only"]],
    [[selId "div_question"]],
    [[selAttr (.eq (js "data-component") (js "question-body"))]],
    [[selClasses ["question-stem"]]],
    [[selClasses ["question-text"]]],
    [[selId "question-body"]],
    [[selClasses ["questionBody"]]],
    [[selClasses ["question"]]],
    [[selTag "main", selTag "article"]],
    [[selAttr (.contains (js "class") (js "question")),
      selAttr (.contains (js "class") (js "body"))]],
    [[selAttr (.eq (js "data-cy") (js "question-text"))]],
    [[selTag "article", selAttr (.contains (js "class") (js "prompt"))]] ]

/-- The list `HEURISTICS.questionKeywords`. -/
def HEURISTICS_questionKeywords : List JsString := [js "question"]

/-- The constant `HEURISTICS.minQuestionChars`. -/
def HEURISTICS_minQuestionChars : Nat := 30

/-- The constant `HEURISTICS.maxQuestionChars`. -/
def HEURISTICS_maxQuestionChars : Nat := 20000

/-! ## Visibility, lookup, text -/

/-- The function `isVisible`. -/
def isVisible (d : Document) : Option Element → Bool
  | none => false
  | some el =>
    if el.display == js "none" || el.visibility == js "hidden" || el.opacity == js "0" then
      false
    else if (closest d el (selAttr (.has (js "hidden")))).isSome then
      false
    else
      decide (el.clientRects > 0)

/-- The function `findVisibleElement`: selectors in order, and for each the
first visible match in tree order. -/
def findVisibleElement (d : Document) (selectors : List Selector) : Option Element :=
  selectors.findSome? fun selector =>
    (querySelectorAll d selector).find? fun el => isVisible d (some el)

/-- The function `extractText`. -/
def extractText : Option Element → JsString
  | none => []
  | some el => trim (collapseBlanksFrom [] (collapseNewlinesFrom 0 (trim el.innerText)))

/-- The function `normalizeHtml`; `none` stands for `undefined`. -/
def normalizeHtml (html : Option JsString) : JsString :=
  trim (html.getD [])

/-! ## Double-precision numbers -/

/-- A finite IEEE 754 double, given by its value `mant * 2 ^ exp`. -/
structure Float64 where
  mant : Int
  exp : Int
deriving DecidableEq, Repr

/-- The value of a double. -/
def Float64.toRat (x : Float64) : ℚ := x.mant * (2 : ℚ) ^ x.exp

/-- Position of the leading bit of `n`, found by halving at most `fuel`
times: the largest `e` with `2 ^ e ≤ n`, and 0 for 0. -/
def log2Fuel : Nat → Nat → Nat
  | 0, _ => 0
  | fuel + 1, n => if n < 2 then 0 else log2Fuel fuel (n / 2) + 1

/-- Position of the leading bit of `n`. -/
def log2Floor (n : Nat) : Nat := log2Fuel n n

/-- The exponent of the leading bit of the positive fraction `a / d`: the
largest `e` with `2 ^ e ≤ a / d`. -/
def exponentOf (a d : Nat) : Int :=
  let e0 : Int := (log2Floor a : Int) - (log2Floor d : Int)
  let reaches : Bool :=
    if 0 ≤ e0 then decide (d * 2 ^ e0.toNat ≤ a) else decide (d ≤ a * 2 ^ (-e0).toNat)
  if reaches then e0 else e0 - 1

/-- The integer nearest to `N / D`, the even one of the two when `N / D` lies
half way. -/
def roundQuotient (N D : Nat) : Nat :=
  let m := N / D
  let r := N % D
  if 2 * r < D then m else if D < 2 * r then m + 1 else if m % 2 = 0 then m else m + 1

/-- The double nearest to `n / d`, ties going to the even mantissa: the
rounding of every arithmetic operation on doubles.  The mantissa has 53 bits,
or fewer below `2 ^ (-1022)`; overflow to infinity is not modelled, and zero
has no sign. -/
def roundNearest (n : Int) (d : Nat) : Float64 :=
  let a := n.natAbs
  if a = 0 ∨ d = 0 then ⟨0, 0⟩
  else
    let u : Int := max (exponentOf a d) (-1022) - 52
    let m1 : Nat :=
      if 0 ≤ u then roundQuotient a (d * 2 ^ u.toNat) else roundQuotient (a * 2 ^ (-u).toNat) d
    ⟨if n < 0 then -(m1 : Int) else (m1 : Int), u⟩

/-- The double holding the integer `n`, exact up to `2 ^ 53`. -/
def Float64.ofNat (n : Nat) : Float64 := ⟨n, 0⟩

/-- The operator `/` on doubles, for a divisor other than zero. -/
def Float64.div (x y : Float64) : Float64 :=
  let s := x.exp - y.exp
  let num : Int := (if y.mant < 0 then -x.mant else x.mant) * (if 0 ≤ s then 2 ^ s.toNat else 1)
  let den : Nat := y.mant.natAbs * (if 0 ≤ s then 1 else 2 ^ (-s).toNat)
  roundNearest num den

/-- The operator `-` on doubles. -/
def Float64.sub (x y : Float64) : Float64 :=
  let e := min x.exp y.exp
  let m : Int := x.mant * 2 ^ (x.exp - e).toNat - y.mant * 2 ^ (y.exp - e).toNat
  if 0 ≤ e then roundNearest (m * 2 ^ e.toNat) 1 else roundNearest m (2 ^ (-e).toNat)

/-! ## The heuristic scanner -/

/-- The loop of `getDomDepth`: `fuel` bounds the iterations, `depth` is the
counter, `cur` the cursor. -/
def getDomDepthLoop (d : Document) : Nat → Nat → Element → Nat
  | 0, depth, _ => depth
  | fuel + 1, depth, cur =>
    match parentElement d cur with
    | none => depth
    | some p => if depth + 1 > 80 then depth + 1 else getDomDepthLoop d fuel (depth + 1) p

/-- The function `getDomDepth`.  The loop leaves once the counter exceeds 80,
so 81 iterations are never all used. -/
def getDomDepth (d : Document) (el : Element) : Nat :=
  getDomDepthLoop d 81 0 el

/-- The function `scoreCandidate`.  `depth`, `text.length`, the minimum, the
difference from 800 and its absolute value are integers, which doubles hold
exactly; the division and the last subtraction round. -/
def scoreCandidate (d : Document) (el : Element) (text : JsString) : Float64 :=
  let depth := getDomDepth d el
  let lengthPenalty :=
    Float64.div (Float64.ofNat ((800 : Int) - (min text.length 2000 : Nat)).natAbs)
      (Float64.ofNat 800)
  Float64.sub (Float64.ofNat (depth * 2)) lengthPenalty

/-- The selector `section, article, main, aside, details, div`. -/
def structuralContainers : Selector :=
  [[selTag "section"], [selTag "article"], [selTag "main"], [selTag "aside"],
   [selTag "details"], [selTag "div"]]

/-- The filter of `heuristicFindPanel`: the candidates of the scan, each with
its score, in traversal order.  `toLower` is the method
`String.prototype.toLowerCase` of the platform. -/
def heuristicCandidates (toLower : JsString → JsString) (d : Document) (kw : List JsString)
    (minChars maxChars : Nat) : List Element → List (Element × Float64)
  | [] => []
  | el :: rest =>
    let tail := heuristicCandidates toLower d kw minChars maxChars rest
    if !isVisible d (some el) then tail
    else
      let text := extractText (some el)
      if text.isEmpty then tail
      else if text.length < minChars ∨ text.length > maxChars then tail
      else
        let lower := toLower text
        if !kw.isEmpty && !(kw.any fun k => includes lower k) then tail
        else (el, scoreCandidate d el text) :: tail

/-- The function `heuristicFindPanel`; `toLower` is the method
`String.prototype.toLowerCase` of the platform.  The sort of the source is
stable and puts higher scores first: the comparator `b.score - a.score` has
the sign of the exact difference, since the difference of two doubles never
rounds to zero or across it. -/
def heuristicFindPanel (toLower : JsString → JsString) (d : Document) (keywords : List JsString)
    (minChars maxChars : Nat) (root : Option Nat) : Option Element :=
  match root with
  | none => none
  | some root =>
    let kw := keywords.map toLower
    let all := querySelectorAllIn d root structuralContainers
    let candidates := heuristicCandidates toLower d kw minChars maxChars all
    let sorted := candidates.insertionSort fun a b => b.2.toRat ≤ a.2.toRat
    sorted.head?.map Prod.fst

/-! ## The answer-state detector -/

/-- The record returned by `getChosenAnswerState`. -/
structure ChosenAnswerState where
  isChosen : Bool
  alertEl : Option Element
  hasResultStyledOption : Bool
  hasPopularityBadges : Bool
  submitButtonVisible : Bool
deriving DecidableEq, Repr

/-- The selectors `#div_question .alert.alert-success` and
`.alert.alert-success`. -/
def successAlertSelectors : List Selector :=
  [ [[selId "div_question", selClasses ["alert", "alert-success"]]],
    [[selClasses ["alert", "alert-success"]]] ]

/-- The selectors `#div_question .alert.alert-danger` and
`.alert.alert-danger`. -/
def dangerAlertSelectors : List Selector :=
  [ [[selId "div_question", selClasses ["alert", "alert-danger"]]],
    [[selClasses ["alert", "alert-danger"]]] ]

/-- The selector `a.list-group-item, label.list-group-item`. -/
def optionNodeSelector : Selector :=
  [[selTagClass "a" "list-group-item"], [selTagClass "label" "list-group-item"]]

/-- The predicate passed to `optionNodes.some` in `getChosenAnswerState`. -/
def isResultStyled (a : Element) : Bool :=
  let styleAttr := toLowerCase ((a.getAttribute (js "style")).getD [])
  includes styleAttr (js "greenbar.png") ||
  includes styleAttr (js "redbar.png") ||
  includes styleAttr (js "solid green") ||
  includes styleAttr (js "solid red") ||
  includes styleAttr (js "border-left") ||
  a.classList.contains (js "bg-success") ||
  a.classList.contains (js "bg-danger") ||
  a.classList.contains (js "list-group-item-success") ||
  a.classList.contains (js "list-group-item-danger")

/-- The expression `document.querySelector("#div_question") || document.body`,
as the reference of the element it yields. -/
def questionRoot (d : Document) : Nat :=
  match querySelector d [[selId "div_question"]] with
  | some e => e.ref
  | none => d.body

/-- The function `getChosenAnswerState`. -/
def getChosenAnswerState (d : Document) : ChosenAnswerState :=
  let alertEl :=
    (findVisibleElement d successAlertSelectors).orElse fun _ =>
      findVisibleElement d dangerAlertSelectors
  let root := questionRoot d
  let optionNodes := querySelectorAllIn d root optionNodeSelector
  let hasResultStyledOption := optionNodes.any isResultStyled
  let hasPopularityBadges :=
    (querySelectorIn d root [[selAttr (.startsWith (js "id") (js "popularity_badge"))]]).isSome ||
    (querySelectorIn d root [[selClasses ["score-badge"]]]).isSome
  let submitButtonVisible := isVisible d (querySelector d [[selId "submit_answer"]])
  let isChosen :=
    alertEl.isSome && (hasResultStyledOption || hasPopularityBadges || !submitButtonVisible)
  { isChosen := isChosen
    alertEl := alertEl
    hasResultStyledOption := hasResultStyledOption
    hasPopularityBadges := hasPopularityBadges
    submitButtonVisible := submitButtonVisible }

/-! ## The controller state and the trigger -/

/-- The settings record. -/
structure Settings where
  deckName : JsString
  noteType : JsString
  tags : JsString
deriving DecidableEq, Repr

/-- The constant `DEFAULT_SETTINGS`. -/
def DEFAULT_SETTINGS : Settings :=
  { deckName := js "Passmedicine"
    noteType := js "Basic"
    tags := js "passmedicine,passmed2anki" }

/-- The object `STATE`, without the toast and the mutation observer, which
none of the functions below reads.  `button` and `evaluationTimeout` hold the
reference of the element and the handle of the timer. -/
structure State where
  button : Option Nat
  settings : Settings
  lastQuestionSignature : JsString
  evaluationTimeout : Option Nat
  debug : Bool
deriving DecidableEq, Repr

/-- The initial value of `STATE`. -/
def State.initial : State :=
  { button := none
    settings := DEFAULT_SETTINGS
    lastQuestionSignature := []
    evaluationTimeout := none
    debug := false }

/-- The method `remove` of the element with reference `r`: the element leaves
its parent, so it and what lies below it are no longer in the document. -/
def Document.remove (d : Document) (r : Nat) : Document :=
  { d with nodes := d.nodes.filter fun e => !(e.ref == r || isDescendantOf d r e) }

/-- The call `parent.insertBefore(node, anchor)`: `node` becomes the sibling
right before `anchor`.  When `anchor` is not in the document the new node
joins a detached tree and the document is unchanged. -/
def insertBeforeNodes (parent : Nat) (node : Element) (anchor : Nat) : List Element → List Element
  | [] => []
  | e :: rest =>
    if e.ref == anchor then { node with parent := some parent } :: e :: rest
    else e :: insertBeforeNodes parent node anchor rest

/-- The call `parent.insertBefore(node, anchor)` on the document. -/
def Document.insertBefore (d : Document) (parent : Nat) (node : Element) (anchor : Nat) :
    Document :=
  { d with nodes := insertBeforeNodes parent node anchor d.nodes }

/-- Whether `e` is the element with reference `r` or lies below it. -/
def inSubtree (d : Document) (r : Nat) (e : Element) : Bool :=
  e.ref == r || isDescendantOf d r e

/-- The call `parent.appendChild(node)`: `node` becomes the last child, that
is, in tree order it follows the last element of the subtree of `parent`.
When `parent` is not in the document, the document is unchanged. -/
def Document.appendChild (d : Document) (parent : Nat) (node : Element) : Document :=
  let after := (d.nodes.reverse.takeWhile fun e => !inSubtree d parent e).reverse
  let upTo := (d.nodes.reverse.dropWhile fun e => !inSubtree d parent e).reverse
  if upTo.isEmpty then d
  else { d with nodes := upTo ++ { node with parent := some parent } :: after }

/-- The function `removeButton`. -/
def removeButton (st : State) (d : Document) : State × Document :=
  match st.button with
  | none => (st, d)
  | some b => ({ st with button := none }, d.remove b)

/-- The function `createButton`; `fresh` is the identity of the object
returned by `document.createElement`.  The new element is parentless and not
rendered. -/
def createButton (fresh : Nat) : Element :=
  { ref := fresh
    parent := none
    tag := js "button"
    attrs := [(js "id", js "pm-anki-button"), (js "type", js "button")]
    display := []
    visibility := []
    opacity := []
    clientRects := 0
    innerText := js "Add to Anki"
    innerHTML := js "Add to Anki" }

/-- The signature computed by `evaluateInjection`. -/
def signatureOf (questionText answerText : JsString) : JsString :=
  questionText.take 120 ++ js "::" ++ answerText.take 120

/-- What a pass of `evaluateInjection` leaves: the controller state, the
document, and the element made by `createButton` during the pass, if any. -/
structure Pass where
  state : State
  document : Document
  created : Option Nat
deriving DecidableEq, Repr

/-- The element `questionEl` of `evaluateInjection`. -/
def findQuestionEl (d : Document) : Option Element :=
  (findVisibleElement d SELECTORS_question).orElse fun _ =>
    heuristicFindPanel toLowerCase d HEURISTICS_questionKeywords HEURISTICS_minQuestionChars
      HEURISTICS_maxQuestionChars (some d.body)

/-- The element `e` as it is after the call `remove()` on the element
`removed`, if any: that element has left its parent, so its `parentElement`
is null; every other element has the parent it had. -/
def Element.afterRemove (e : Element) (removed : Option Nat) : Element :=
  if removed = some e.ref then { e with parent := none } else e

/-- The function `evaluateInjection`, run on the state `st` and the document
`d`; `fresh` is the identity `document.createElement` would give.  Where the
trigger is created, a trigger held when the pass began has been removed by
`removeButton`, and `anchor.parentElement` is read after that. -/
def evaluateInjection (fresh : Nat) (st : State) (d : Document) : Pass :=
  let questionEl := findQuestionEl d
  let chosenState := getChosenAnswerState d
  let answerEl := chosenState.alertEl
  let questionText := extractText questionEl
  let answerText := extractText answerEl
  if !chosenState.isChosen || answerEl.isNone || answerText.isEmpty then
    let r := removeButton st d
    { state := r.1, document := r.2, created := none }
  else if questionText.isEmpty then
    let r := removeButton st d
    { state := r.1, document := r.2, created := none }
  else
    let signature := signatureOf questionText answerText
    let r :=
      if st.lastQuestionSignature ≠ signature then
        removeButton { st with lastQuestionSignature := signature } d
      else (st, d)
    if r.1.button.isSome then
      { state := r.1, document := r.2, created := none }
    else
      let button := createButton fresh
      let st2 := { r.1 with button := some button.ref }
      let anchor := answerEl.orElse fun _ => questionEl
      match anchor with
      | some a =>
        let anchorNow := a.afterRemove st.button
        match anchorNow.parent with
        | some p =>
          { state := st2
            document := r.2.insertBefore p button anchorNow.ref
            created := some fresh }
        | none =>
          { state := st2, document := r.2.appendChild r.2.body button, created := some fresh }
      | none =>
        { state := st2, document := r.2.appendChild r.2.body button, created := some fresh }

/-! ## The payload builder -/

/-- The selectors `#div_question .alert[role='alert']` and
`.alert[role='alert']`. -/
def roleAlertSelectors : List Selector :=
  [ [[selId "div_question", ⟨none, none, [js "alert"], [.eq (js "role") (js "alert")]⟩]],
    [[⟨none, none, [js "alert"], [.eq (js "role") (js "alert")]⟩]] ]

/-- The `removeSelectors` passed by `extractAlertSuccessInfoOnlyHtml`. -/
def auxiliaryWidgetSelectors : List Selector :=
  [ [[selId "question_concept_rating_div"]],
    [[selId "question_concept_percentile_div"]],
    [[selClasses ["rate_question_concept"]]] ]

/-- The function `extractCleanHtml`.  The deep clone of `el` has the
`innerHTML` of `el` as long as nothing is removed from it; `pruned el removed`
is what the browser serialises for the clone once the subtrees at `removed`
have left it. -/
def extractCleanHtml (pruned : Element → List Nat → JsString) (d : Document)
    (el : Option Element) (removeSelectors : List Selector) : JsString :=
  match el with
  | none => []
  | some el =>
    let removed := removeSelectors.flatMap fun selector =>
      (querySelectorAllIn d el.ref selector).map fun node => node.ref
    normalizeHtml (some (if removed.isEmpty then el.innerHTML else pruned el removed))

/-- The function `extractAlertSuccessInfoOnlyHtml`. -/
def extractAlertSuccessInfoOnlyHtml (pruned : Element → List Nat → JsString) (d : Document) :
    JsString :=
  let alertEl :=
    ((findVisibleElement d successAlertSelectors).orElse fun _ =>
      findVisibleElement d dangerAlertSelectors).orElse fun _ =>
      findVisibleElement d roleAlertSelectors
  match alertEl with
  | none => []
  | some el => extractCleanHtml pruned d (some el) auxiliaryWidgetSelectors

/-- The predicate passed to `options.filter` in `extractGreenOptionHtml`. -/
def isGreenOption (a : Element) : Bool :=
  let styleAttr := toLowerCase ((a.getAttribute (js "style")).getD [])
  if includes styleAttr (js "greenbar.png") then true
  else if includes styleAttr (js "solid green") then true
  else if a.classList.contains (js "bg-success") ||
      a.classList.contains (js "list-group-item-success") then true
  else false

/-- The function `extractGreenOptionHtml`. -/
def extractGreenOptionHtml (d : Document) : JsString :=
  let root := questionRoot d
  let options := querySelectorAllIn d root [[selTagClass "a" "list-group-item"]]
  if options.isEmpty then []
  else
    let greenCandidates := options.filter isGreenOption
    match greenCandidates.head? with
    | none => []
    | some best =>
      let labelSpan := querySelectorIn d best.ref [[selTag "span"]]
      normalizeHtml (some (labelSpan.getD best).innerHTML)

/-- The function `normalizeTags`. -/
def normalizeTags (tagString : JsString) : List JsString :=
  ((split 44 tagString).map trim).filter fun tag => !tag.isEmpty

/-- The expression `Array.from(new Set(xs))`: each value once, at the place
of its first occurrence. -/
def arrayFromSet (xs : List JsString) : List JsString :=
  xs.foldl (fun acc x => if x ∈ acc then acc else acc ++ [x]) []

/-- The object under `fields` of a note. -/
structure NoteFields where
  Front : JsString
  Back : JsString
deriving DecidableEq, Repr

/-- The object under `options` of a note. -/
structure NoteOptions where
  allowDuplicate : Bool
deriving DecidableEq, Repr

/-- The object under `note`. -/
structure Note where
  deckName : JsString
  modelName : JsString
  fields : NoteFields
  tags : List JsString
  options : NoteOptions
deriving DecidableEq, Repr

/-- The object under `params`. -/
structure NoteParams where
  note : Note
deriving DecidableEq, Repr

/-- The request returned by `buildNotePayload`. -/
structure NoteRequest where
  action : JsString
  version : Nat
  params : NoteParams
deriving DecidableEq, Repr

/-- The value `questionHtml` of `buildNotePayload`. -/
def questionHtmlOf (d : Document) : JsString :=
  normalizeHtml ((querySelector d [[selId "question_only"]]).map fun el => el.innerHTML)

/-- The function `buildNotePayload`; `none` is the `null` result. -/
def buildNotePayload (pruned : Element → List Nat → JsString) (st : State) (d : Document) :
    Option NoteRequest :=
  let questionHtml := questionHtmlOf d
  let explanationHtml := extractAlertSuccessInfoOnlyHtml pruned d
  let correctHtml := extractGreenOptionHtml d
  if questionHtml.isEmpty || explanationHtml.isEmpty then none
  else
    let backHtml :=
      join (js "<br><br>") ([correctHtml, explanationHtml].filter fun part => !part.isEmpty)
    let tags := normalizeTags st.settings.tags
    some
      { action := js "addNote"
        version := 6
        params :=
          { note :=
              { deckName := st.settings.deckName
                modelName := st.settings.noteType
                fields := { Front := questionHtml, Back := backHtml }
                tags := arrayFromSet (tags ++ [js "passmedicine"])
                options := { allowDuplicate := false } } } }

/-! ## The change scheduler -/

/-- A pending timer: its handle and the time at which it is due. -/
structure Timer where
  id : Nat
  due : Nat
deriving DecidableEq, Repr

/-- The event loop as the scheduler sees it: the clock (milliseconds), the
pending timers, the next handle, and the times at which the timer callback
`evaluateInjection` has run. -/
structure EventLoop where
  now : Nat
  timers : List Timer
  nextId : Nat
  passes : List Nat
deriving DecidableEq, Repr

/-- The loop at start: nothing pending, nothing run. -/
def EventLoop.initial : EventLoop :=
  { now := 0, timers := [], nextId := 1, passes := [] }

/-- The call `clearTimeout(handle)`; `none` is `null`, and a handle that is
not pending is ignored. -/
def EventLoop.clearTimeout (l : EventLoop) (handle : Option Nat) : EventLoop :=
  match handle with
  | none => l
  | some h => { l with timers := l.timers.filter fun t => !(t.id == h) }

/-- The call `setTimeout(evaluateInjection, delay)`: the loop with the new
timer, and its handle. -/
def EventLoop.setTimeout (l : EventLoop) (delay : Nat) : EventLoop × Nat :=
  ({ l with timers := l.timers ++ [{ id := l.nextId, due := l.now + delay }]
            nextId := l.nextId + 1 },
   l.nextId)

/-- The function `scheduleEvaluation`. -/
def scheduleEvaluation (st : State) (l : EventLoop) : State × EventLoop :=
  let l1 := l.clearTimeout st.evaluationTimeout
  let r := l1.setTimeout 250
  ({ st with evaluationTimeout := some r.2 }, r.1)

/-- The clock moves to time `t`: every timer due by then fires, in the order
of the due times, and the callback runs at the due time. -/
def EventLoop.advanceTo (l : EventLoop) (t : Nat) : EventLoop :=
  let fired := (l.timers.filter fun x => decide (x.due ≤ t)).insertionSort fun a b => a.due ≤ b.due
  { l with now := max l.now t
           timers := l.timers.filter fun x => !decide (x.due ≤ t)
           passes := l.passes ++ fired.map fun x => x.due }

/-- A change notification arrives at time `t`: the clock has moved there and
the observer callback `scheduleEvaluation` runs. -/
def notifyAt (s : State × EventLoop) (t : Nat) : State × EventLoop :=
  scheduleEvaluation s.1 (s.2.advanceTo t)

/-- The loop runs until no timer is pending. -/
def EventLoop.drain (l : EventLoop) : EventLoop :=
  l.advanceTo ((l.timers.map fun x => x.due).foldl max l.now)

/-- The times of the passes run as a result of notifications at the times
`ts`, from the initial state, once the loop has gone quiet. -/
def passesAfter (ts : List Nat) : List Nat :=
  ((ts.foldl notifyAt (State.initial, EventLoop.initial)).2.drain).passes

/-- Each notification comes less than 250 ms after the one before. -/
def withinWindow : List Nat → Prop
  | [] => True
  | [_] => True
  | t :: u :: rest => t ≤ u ∧ u < t + 250 ∧ withinWindow (u :: rest)

/-! ## Sessions: passes over a changing page -/

/-- One pass of a session: the document as the page presents it when the pass
starts, and the identity `document.createElement` would give. -/
structure Step where
  document : Document
  fresh : Nat
deriving DecidableEq, Repr

/-- A session so far: the controller state, the document as the last pass left
it, and the elements the engine has created. -/
structure Session where
  state : State
  document : Document
  created : List Nat
deriving DecidableEq, Repr

/-- The session before the first pass, on the document `d`. -/
def Session.initial (d : Document) : Session :=
  { state := State.initial, document := d, created := [] }

/-- The session after one more pass. -/
def Session.step (s : Session) (x : Step) : Session :=
  let r := evaluateInjection x.fresh s.state x.document
  { state := r.state
    document := r.document
    created :=
      match r.created with
      | some c => c :: s.created
      | none => s.created }

/-- The session after the passes `xs`. -/
def Session.run (s : Session) (xs : List Step) : Session :=
  xs.foldl Session.step s

/-- References of the elements of a document. -/
def Document.refs (d : Document) : List Nat :=
  d.nodes.map fun e => e.ref

/-- What the platform and the page grant for one pass: the created object is
new; the elements of the document are distinct objects; and an element the
engine created is in the document only if the last pass left it there or the
controller still holds it (the page can keep, detach or put back what it can
reach, and an element the engine removed is out of its reach). -/
def Session.admits (s : Session) (x : Step) : Prop :=
  x.fresh ∉ s.created ∧ x.fresh ∉ x.document.refs ∧ x.document.refs.Nodup ∧
  ∀ r ∈ x.document.refs, r ∈ s.created → r ∈ s.document.refs ∨ s.state.button = some r

/-- Every pass of `xs` is admitted by the session it starts from. -/
def Session.admitsAll : Session → List Step → Prop
  | _, [] => True
  | s, x :: xs => s.admits x ∧ Session.admitsAll (s.step x) xs

/-- The engine-created elements attached to the document of a session. -/
def Session.attachedTriggers (s : Session) : List Element :=
  s.document.nodes.filter fun e => decide (e.ref ∈ s.created)

/-! ## The words of the specification -/

/-- Spec: a visible success- or danger-style result alert exists. -/
def Spec.alertPresent (d : Document) : Prop :=
  ∃ e ∈ d.nodes, isVisible d (some e) = true ∧ js "alert" ∈ e.classList ∧
    (js "alert-success" ∈ e.classList ∨ js "alert-danger" ∈ e.classList)

/-- Spec: some option node under the question container is result-styled. -/
def Spec.resultStyledOptionPresent (d : Document) : Prop :=
  ∃ e ∈ d.nodes, isDescendantOf d (questionRoot d) e = true ∧
    (e.tag = js "a" ∨ e.tag = js "label") ∧ js "list-group-item" ∈ e.classList ∧
    isResultStyled e = true

/-- Spec: a popularity or score badge is present under the question
container. -/
def Spec.popularityBadgePresent (d : Document) : Prop :=
  ∃ e ∈ d.nodes, isDescendantOf d (questionRoot d) e = true ∧
    ((∃ v, e.getAttribute (js "id") = some v ∧ (js "popularity_badge").isPrefixOf v = true) ∨
      js "score-badge" ∈ e.classList)

/-- Spec: the submit control, the first element with id `submit_answer`, is
visible. -/
def Spec.submitControlVisible (d : Document) : Prop :=
  isVisible d (d.nodes.find? fun e => e.getAttribute (js "id") == some (js "submit_answer")) = true

/-- The ready state of a pass: an answer was chosen and both texts are
non-empty. -/
def ready (d : Document) : Prop :=
  (getChosenAnswerState d).isChosen = true ∧
  extractText (findQuestionEl d) ≠ [] ∧
  extractText (getChosenAnswerState d).alertEl ≠ []

/-- The signature of the pass on the document `d`. -/
def passSignature (d : Document) : JsString :=
  signatureOf (extractText (findQuestionEl d)) (extractText (getChosenAnswerState d).alertEl)

/-! ## Example pages -/

/-- A rendered element. -/
def shown (ref : Nat) (parent : Option Nat) (tag : String) (attrs : List (String × String))
    (text : JsString) : Element :=
  { ref := ref
    parent := parent
    tag := js tag
    attrs := attrs.map fun a => (js a.1, js a.2)
    display := js "block"
    visibility := js "visible"
    opacity := js "1"
    clientRects := 1
    innerText := text
    innerHTML := text }

/-- A page showing exactly the chosen signals: alert, result-styled option,
score badge, visible submit control. -/
def signalDocument (a r p s : Bool) : Document :=
  { nodes :=
      [shown 0 none "html" [] [], shown 1 (some 0) "body" [] []] ++
      (if a then [shown 2 (some 1) "div" [("class", "alert alert-danger")] (js "Wrong")] else []) ++
      (if r then [shown 3 (some 1) "label" [("class", "list-group-item bg-danger")] (js "B")] else []) ++
      (if p then [shown 4 (some 1) "span" [("class", "score-badge")] (js "40%")] else []) ++
      (if s then [shown 5 (some 1) "button" [("id", "submit_answer")] (js "Submit")] else [])
    body := 1 }

/-- An answered question: the question text of 39 characters, a result-styled
option, and a visible success alert whose text has 80 characters. -/
def answeredDocument : Document :=
  { nodes :=
      [ shown 0 none "html" [] [],
        shown 1 (some 0) "body" [] [],
        shown 2 (some 1) "div" [("id", "div_question")] [],
        shown 3 (some 2) "div" [("id", "question_only")]
          (js "What is the first-line treatment for X?"),
        shown 4 (some 2) "a"
          [("class", "list-group-item"), ("style", "background: url(greenbar.png)")]
          (js "Drug A"),
        shown 5 (some 2) "div" [("class", "alert alert-success")] (List.replicate 80 120) ]
    body := 1 }

/-! ## Decision procedures, invariants and further examples -/

/-- Whether a session admits a pass can be computed. -/
instance Session.decidableAdmits (s : Session) (x : Step) : Decidable (s.admits x) := by
  unfold Session.admits
  infer_instance

/-- Whether a session admits a list of passes can be computed. -/
instance Session.decidableAdmitsAll : (s : Session) → (xs : List Step) → Decidable (s.admitsAll xs)
  | _, [] => isTrue trivial
  | s, x :: xs =>
    match Session.decidableAdmits s x, Session.decidableAdmitsAll (s.step x) xs with
    | isTrue h1, isTrue h2 => isTrue ⟨h1, h2⟩
    | isFalse h1, _ => isFalse fun h => h1 h.1
    | _, isFalse h2 => isFalse fun h => h2 h.2

/-- The nodes `l'` are the nodes `l`, possibly with `n` put in at one place. -/
def InsertedOrSame (n : Element) (l l' : List Element) : Prop :=
  l' = l ∨ ∃ pre post, l = pre ++ post ∧ l' = pre ++ n :: post

/-- Every engine-created element of the document is the one the controller
holds. -/
def OnlyHeld (created : List Nat) (st : State) (d : Document) : Prop :=
  ∀ e ∈ d.nodes, e.ref ∈ created → st.button = some e.ref

/-- The invariant of a session: the engine-created elements in the document
are held by the controller, and there is at most one of them. -/
def Session.Sound (s : Session) : Prop :=
  OnlyHeld s.created s.state s.document ∧ s.attachedTriggers.length ≤ 1

/-- A session: a trigger is created, kept on the next pass, removed when the
page shows an unanswered question, and created anew on return. -/
def exampleSession : List Step :=
  [ { document := answeredDocument, fresh := 100 },
    { document := (evaluateInjection 100 State.initial answeredDocument).document, fresh := 101 },
    { document := signalDocument false false false true, fresh := 102 },
    { document := answeredDocument, fresh := 103 } ]

/-- Whether a pass is in the ready state can be computed. -/
instance ready.decidable (d : Document) : Decidable (ready d) := by
  unfold ready
  infer_instance

/-- Two passes on the answered page; between them the page has detached the
trigger the first pass inserted. -/
def detachSession : List Step :=
  [ { document := answeredDocument, fresh := 100 },
    { document := answeredDocument, fresh := 101 } ]

/-- The state and document of a ready pass once its signature check is
done. -/
def afterSignatureCheck (st : State) (d : Document) : State × Document :=
  if st.lastQuestionSignature ≠ passSignature d then
    removeButton { st with lastQuestionSignature := passSignature d } d
  else (st, d)

/-- The end of a ready pass that holds no trigger: the trigger is created and
placed next to the answer node `a`. -/
def placeTrigger (fresh : Nat) (r : State × Document) (a : Element) : Pass :=
  match a.parent with
  | some p =>
    { state := { r.1 with button := some fresh }
      document := r.2.insertBefore p (createButton fresh) a.ref
      created := some fresh }
  | none =>
    { state := { r.1 with button := some fresh }
      document := r.2.appendChild r.2.body (createButton fresh)
      created := some fresh }

/-- A question answered wrongly, on a layout whose options are `label`
elements: no `a.list-group-item` option is styled green. -/
def wrongAnswerDocument : Document :=
  { nodes :=
      [ shown 0 none "html" [] [],
        shown 1 (some 0) "body" [] [],
        shown 2 (some 1) "div" [("id", "div_question")] [],
        shown 3 (some 2) "div" [("id", "question_only")] (js "Which drug?"),
        shown 4 (some 2) "label" [("class", "list-group-item bg-danger")] (js "Drug B"),
        shown 5 (some 2) "div" [("class", "alert alert-danger")] (js "<b>Drug A</b> is right") ]
    body := 1 }

/-- A serialiser for pages without auxiliary widgets, where nothing is
pruned. -/
def unpruned (el : Element) (_removed : List Nat) : JsString := el.innerHTML

/-- A question not yet answered: the question text, a plain option, a visible
submit control, no alert. -/
def unansweredDocument : Document :=
  { nodes :=
      [ shown 0 none "html" [] [],
        shown 1 (some 0) "body" [] [],
        shown 2 (some 1) "div" [("id", "div_question")] [],
        shown 3 (some 2) "div" [("id", "question_only")]
          (js "What is the first-line treatment for X?"),
        shown 4 (some 2) "a" [("class", "list-group-item")] (js "Drug A"),
        shown 5 (some 2) "button" [("id", "submit_answer")] (js "Submit") ]
    body := 1 }

/-- Whether notifications stay within the window can be computed. -/
instance withinWindow.decidable : (ts : List Nat) → Decidable (withinWindow ts)
  | [] => isTrue trivial
  | [_] => isTrue trivial
  | t :: u :: rest =>
    match Nat.decLe t u, Nat.decLt u (t + 250), withinWindow.decidable (u :: rest) with
    | isTrue h1, isTrue h2, isTrue h3 => isTrue ⟨h1, h2, h3⟩
    | isFalse h1, _, _ => isFalse fun h => h1 h.1
    | _, isFalse h2, _ => isFalse fun h => h2 h.2.1
    | _, _, isFalse h3 => isFalse fun h => h3 h.2.2

/-- The scheduler right after a notification at time `t`: one timer pending,
due at `t + 250`, its handle stored, and no pass run so far. -/
def Debounced (t : Nat) (s : State × EventLoop) : Prop :=
  ∃ k, s.2.timers = [{ id := k, due := t + 250 }] ∧ s.1.evaluationTimeout = some k ∧
    s.2.passes = [] ∧ s.2.now = t

/-- Notifications every 2 ms from time 0 to time 98. -/
def rapidFire : List Nat := (List.range 50).map fun i => 2 * i

/-- A chain of 84 nested `div` elements: element `i` is the child of element
`i - 1`, so the innermost one has 83 ancestors. -/
def deepDocument : Document :=
  { nodes := (List.range 84).map fun i =>
      shown i (if i = 0 then none else some (i - 1)) "div" [] (js "x")
    body := 0 }

/-- The innermost element of `deepDocument`. -/
def deepest : Element := shown 83 (some 82) "div" [] (js "x")

/-- Spec: the DOM depth of a node, the number of its ancestor elements. -/
def Spec.domDepth (d : Document) (el : Element) : Nat := (ancestors d el).length

/-- Spec: a structural container is a `section`, `article`, `main`, `aside`,
`details` or `div` element. -/
def Spec.isStructuralContainer (e : Element) : Bool :=
  e.tag == js "section" || e.tag == js "article" || e.tag == js "main" ||
  e.tag == js "aside" || e.tag == js "details" || e.tag == js "div"

/-- Spec: the structural container descendants of `root`, in traversal order;
none when `root` is null. -/
def Spec.scanned (d : Document) : Option Nat → List Element
  | none => []
  | some root => d.nodes.filter fun e => isDescendantOf d root e && Spec.isStructuralContainer e

/-- Spec: a node qualifies when it is visible, its normalized text is
non-empty with length in `[minChars, maxChars]`, and the keyword list is empty
or some keyword occurs in the text as a case-insensitive substring: it is a
substring once both are lower-cased by the platform (`toLower`). -/
def Spec.qualifies (toLower : JsString → JsString) (d : Document) (keywords : List JsString)
    (minChars maxChars : Nat) (e : Element) : Prop :=
  isVisible d (some e) = true ∧ extractText (some e) ≠ [] ∧
  minChars ≤ (extractText (some e)).length ∧ (extractText (some e)).length ≤ maxChars ∧
  (keywords = [] ∨
    ∃ k ∈ keywords, includes (toLower (extractText (some e))) (toLower k) = true)

/-- Spec: the score of a node, the value of the double that `scoreCandidate`
returns on its normalized text. -/
def Spec.score (d : Document) (e : Element) : ℚ :=
  (scoreCandidate d e (extractText (some e))).toRat

/-- A page without the known question selectors: one panel holds the
question, one is too short, one has no keyword. -/
def panelDocument : Document :=
  { nodes :=
      [ shown 0 none "html" [] [],
        shown 1 (some 0) "body" [] [],
        shown 2 (some 1) "div" [] (js "Question 1: which of these drugs is first line?"),
        shown 3 (some 1) "div" [] (js "short"),
        shown 4 (some 1) "div" [] (js "A long paragraph of text about something else.") ]
    body := 1 }

/-- The test of the loop of `heuristicFindPanel`: whether `el` becomes a
candidate, for the lower-cased keywords `kw`. -/
def isCandidate (toLower : JsString → JsString) (d : Document) (kw : List JsString)
    (minChars maxChars : Nat) (el : Element) : Bool :=
  isVisible d (some el) && !(extractText (some el)).isEmpty &&
  !decide ((extractText (some el)).length < minChars ∨ (extractText (some el)).length > maxChars) &&
  !(!kw.isEmpty && !(kw.any fun k => includes (toLower (extractText (some el))) k))

/-- The element of `deepDocument` with three ancestors. -/
def thirdLevel : Element := shown 3 (some 2) "div" [] (js "x")

/-- Spec: the score formula of C12 as a rational number, for depth `depth` and
text length `len`. -/
def Spec.scoreFormula (depth len : Nat) : ℚ :=
  2 * (depth : ℚ) - |800 - ((min len 2000 : Nat) : ℚ)| / 800

/-- The page of `answeredDocument` once it shows another question, answered:
the elements `triggers`, made by `createButton`, are children of the question
container placed before the alert. -/
def nextQuestionDocument (triggers : List Nat) : Document :=
  { nodes :=
      [ shown 0 none "html" [] [],
        shown 1 (some 0) "body" [] [],
        shown 2 (some 1) "div" [("id", "div_question")] [],
        shown 3 (some 2) "div" [("id", "question_only")]
          (js "Which drug is second-line for condition Y?"),
        shown 4 (some 2) "a"
          [("class", "list-group-item"), ("style", "background: url(greenbar.png)")]
          (js "Drug B") ] ++
      (triggers.map fun t => { createButton t with parent := some 2 }) ++
      [ shown 5 (some 2) "div" [("class", "alert alert-success")] (List.replicate 80 120) ]
    body := 1 }

/-- Three passes: a trigger is created on the answered page; the page moves to
the next question, so the trigger is removed and another is created; then the
page puts the removed trigger back next to the new one. -/
def reattachSession : List Step :=
  [ { document := answeredDocument, fresh := 100 },
    { document := nextQuestionDocument [100], fresh := 101 },
    { document := nextQuestionDocument [101, 100], fresh := 102 } ]

/-- Spec: the element with reference `r` is in the document and is neither the
element with reference `b` nor below it, so it stays in the document when `b`
is removed. -/
def Spec.outsideOf (d : Document) (b r : Nat) : Prop :=
  ∃ e ∈ d.nodes, e.ref = r ∧ e.ref ≠ b ∧ isDescendantOf d b e = false

/-- Spec: the condition, read when a ready pass with answer node `a` begins,
under which the trigger held when the pass ends is in the document.  With no
trigger held, the answer node has a parent element or the body is in the
document.  With a trigger held and the signature unchanged, that trigger is in
the document.  With a trigger held and the signature changed, the node the new
trigger is put at stays when the old one is removed: the body when the answer
node is the old trigger or has no parent element, the answer node otherwise. -/
def Spec.triggerEndsAttached (st : State) (d : Document) (a : Element) : Prop :=
  match st.button with
  | none => a.parent.isSome ∨ d.body ∈ d.refs
  | some b =>
    if st.lastQuestionSignature = passSignature d then b ∈ d.refs
    else if a.ref = b ∨ a.parent = none then Spec.outsideOf d b d.body
    else Spec.outsideOf d b a.ref

/-- Whether an element stays outside a removed subtree can be computed. -/
instance Spec.outsideOf.decidable (d : Document) (b r : Nat) : Decidable (Spec.outsideOf d b r) := by
  unfold Spec.outsideOf
  infer_instance

/-- Whether the condition of `Spec.triggerEndsAttached` holds can be computed. -/
instance Spec.triggerEndsAttached.decidable (st : State) (d : Document) (a : Element) :
    Decidable (Spec.triggerEndsAttached st d a) := by
  unfold Spec.triggerEndsAttached
  cases st.button <;> infer_instance

/-- The controller state after a first pass on `answeredDocument` has created
the trigger 100. -/
def holding100 : State := (evaluateInjection 100 State.initial answeredDocument).state

/-- The next question, answered, on a page that has moved the alert into the
trigger 100: the alert is the child of the trigger. -/
def nestedAnswerDocument : Document :=
  { nodes :=
      [ shown 0 none "html" [] [],
        shown 1 (some 0) "body" [] [],
        shown 2 (some 1) "div" [("id", "div_question")] [],
        shown 3 (some 2) "div" [("id", "question_only")]
          (js "Which drug is second-line for condition Y?"),
        shown 4 (some 2) "a"
          [("class", "list-group-item"), ("style", "background: url(greenbar.png)")]
          (js "Drug B"),
        shown 100 (some 2) "button" [("id", "pm-anki-button"), ("type", "button")]
          (js "Add to Anki"),
        shown 5 (some 100) "div" [("class", "alert alert-success")] (List.replicate 80 120) ]
    body := 1 }

/-! ## Lookup lemmas -/

theorem findVisibleElement_isSome (d : Document) (sels : List Selector) :
    (findVisibleElement d sels).isSome = true ↔
      ∃ sel ∈ sels, ∃ e ∈ d.nodes, matchesSelector d sel e = true ∧ isVisible d (some e) = true := by
  unfold findVisibleElement
  rw [List.findSome?_isSome_iff]
  constructor
  · rintro ⟨sel, hsel, h⟩
    rw [List.find?_isSome] at h
    obtain ⟨e, he, hv⟩ := h
    rw [querySelectorAll, List.mem_filter] at he
    exact ⟨sel, hsel, e, he.1, he.2, hv⟩
  · rintro ⟨sel, hsel, e, he, hm, hv⟩
    refine ⟨sel, hsel, ?_⟩
    rw [List.find?_isSome]
    exact ⟨e, by rw [querySelectorAll, List.mem_filter]; exact ⟨he, hm⟩, hv⟩

theorem findVisibleElement_some {d : Document} {sels : List Selector} {e : Element}
    (h : findVisibleElement d sels = some e) :
    e ∈ d.nodes ∧ isVisible d (some e) = true ∧ ∃ sel ∈ sels, matchesSelector d sel e = true := by
  unfold findVisibleElement at h
  obtain ⟨sel, hsel, hf⟩ := List.exists_of_findSome?_eq_some h
  have hm := List.mem_of_find?_eq_some hf
  have hv := List.find?_some hf
  rw [querySelectorAll, List.mem_filter] at hm
  exact ⟨hm.1, hv, sel, hsel, hm.2⟩

theorem matchesCompound_selClasses (ks : List String) (e : Element) :
    matchesCompound (selClasses ks) e = true ↔ ∀ k ∈ ks, js k ∈ e.classList := by
  simp [matchesCompound, selClasses, List.all_eq_true]

theorem matchesSelector_single (d : Document) (c : Compound) (e : Element) :
    matchesSelector d [[c]] e = matchesCompound c e := by
  simp [matchesSelector, matchesComplex, matchChain]

theorem matchesSelector_pair (d : Document) (a c : Compound) (e : Element) :
    matchesSelector d [[a, c]] e = true → matchesCompound c e = true := by
  simp [matchesSelector, matchesComplex]
  intro h _; exact h

theorem alertSelectors_isSome (d : Document) (k : String) :
    (findVisibleElement d
      [ [[selId "div_question", selClasses ["alert", k]]], [[selClasses ["alert", k]]] ]).isSome = true ↔
    ∃ e ∈ d.nodes, isVisible d (some e) = true ∧ js "alert" ∈ e.classList ∧ js k ∈ e.classList := by
  rw [findVisibleElement_isSome]
  constructor
  · rintro ⟨sel, hsel, e, he, hm, hv⟩
    refine ⟨e, he, hv, ?_⟩
    have hc : matchesCompound (selClasses ["alert", k]) e = true := by
      simp only [List.mem_cons, List.mem_singleton, List.not_mem_nil, or_false] at hsel
      rcases hsel with rfl | rfl
      · exact matchesSelector_pair d _ _ e hm
      · rwa [matchesSelector_single] at hm
    rw [matchesCompound_selClasses] at hc
    exact ⟨hc "alert" (by simp), hc k (by simp)⟩
  · rintro ⟨e, he, hv, h1, h2⟩
    refine ⟨[[selClasses ["alert", k]]], by simp, e, he, ?_, hv⟩
    rw [matchesSelector_single, matchesCompound_selClasses]
    intro x hx
    simp only [List.mem_cons, List.mem_singleton, List.not_mem_nil, or_false] at hx
    rcases hx with rfl | rfl <;> assumption

theorem alertEl_isSome (d : Document) :
    (getChosenAnswerState d).alertEl.isSome = true ↔ Spec.alertPresent d := by
  have hs := alertSelectors_isSome d "alert-success"
  have hd := alertSelectors_isSome d "alert-danger"
  change (findVisibleElement d successAlertSelectors).isSome = true ↔ _ at hs
  change (findVisibleElement d dangerAlertSelectors).isSome = true ↔ _ at hd
  have : (getChosenAnswerState d).alertEl.isSome = true ↔
      ((findVisibleElement d successAlertSelectors).isSome = true ∨
        (findVisibleElement d dangerAlertSelectors).isSome = true) := by
    simp only [getChosenAnswerState]
    cases findVisibleElement d successAlertSelectors <;> simp [Option.orElse]
  rw [this, hs, hd, Spec.alertPresent]
  constructor
  · rintro (⟨e, he, hv, h1, h2⟩ | ⟨e, he, hv, h1, h2⟩)
    · exact ⟨e, he, hv, h1, Or.inl h2⟩
    · exact ⟨e, he, hv, h1, Or.inr h2⟩
  · rintro ⟨e, he, hv, h1, h2 | h2⟩
    · exact Or.inl ⟨e, he, hv, h1, h2⟩
    · exact Or.inr ⟨e, he, hv, h1, h2⟩

theorem matchesCompound_selTagClass (t k : String) (e : Element) :
    matchesCompound (selTagClass t k) e = true ↔ e.tag = js t ∧ js k ∈ e.classList := by
  simp [matchesCompound, selTagClass]

theorem matchesCompound_selId (i : String) (e : Element) :
    matchesCompound (selId i) e = (e.getAttribute (js "id") == some (js i)) := by
  simp [matchesCompound, selId]

theorem mem_querySelectorAllIn {d : Document} {root : Nat} {sel : Selector} {e : Element} :
    e ∈ querySelectorAllIn d root sel ↔
      e ∈ d.nodes ∧ isDescendantOf d root e = true ∧ matchesSelector d sel e = true := by
  simp [querySelectorAllIn, List.mem_filter]

theorem querySelectorIn_isSome {d : Document} {root : Nat} {sel : Selector} :
    (querySelectorIn d root sel).isSome = true ↔
      ∃ e ∈ d.nodes, isDescendantOf d root e = true ∧ matchesSelector d sel e = true := by
  rw [querySelectorIn, List.head?_isSome]
  constructor
  · intro h
    obtain ⟨e, he⟩ := List.exists_mem_of_ne_nil _ h
    exact ⟨e, (mem_querySelectorAllIn.1 he).1, (mem_querySelectorAllIn.1 he).2⟩
  · rintro ⟨e, he, h1, h2⟩ hnil
    have : e ∈ querySelectorAllIn d root sel := mem_querySelectorAllIn.2 ⟨he, h1, h2⟩
    rw [hnil] at this
    exact List.not_mem_nil _ this

theorem hasResultStyledOption_iff (d : Document) :
    (getChosenAnswerState d).hasResultStyledOption = true ↔ Spec.resultStyledOptionPresent d := by
  simp only [getChosenAnswerState, List.any_eq_true, Spec.resultStyledOptionPresent]
  constructor
  · rintro ⟨e, he, hs⟩
    obtain ⟨hn, hd, hm⟩ := mem_querySelectorAllIn.1 he
    refine ⟨e, hn, hd, ?_⟩
    simp only [optionNodeSelector, matchesSelector, matchesComplex, List.any_cons, List.any_nil,
      List.reverse_cons, List.reverse_nil, List.nil_append, matchChain, Bool.and_true,
      Bool.or_false, Bool.or_eq_true, matchesCompound_selTagClass] at hm
    rcases hm with ⟨h1, h2⟩ | ⟨h1, h2⟩
    · exact ⟨Or.inl h1, h2, hs⟩
    · exact ⟨Or.inr h1, h2, hs⟩
  · rintro ⟨e, hn, hd, ht, hc, hs⟩
    refine ⟨e, mem_querySelectorAllIn.2 ⟨hn, hd, ?_⟩, hs⟩
    simp only [optionNodeSelector, matchesSelector, matchesComplex, List.any_cons, List.any_nil,
      List.reverse_cons, List.reverse_nil, List.nil_append, matchChain, Bool.and_true,
      Bool.or_false, Bool.or_eq_true, matchesCompound_selTagClass]
    rcases ht with ht | ht
    · exact Or.inl ⟨ht, hc⟩
    · exact Or.inr ⟨ht, hc⟩

theorem matchesCompound_idStartsWith (v0 : String) (e : Element) :
    matchesCompound (selAttr (.startsWith (js "id") (js v0))) e = true ↔
      ∃ v, e.getAttribute (js "id") = some v ∧ ((js v0).isEmpty = false ∧ (js v0).isPrefixOf v = true) := by
  simp only [matchesCompound, selAttr, List.all_cons, List.all_nil, Bool.and_true, Bool.true_and,
    AttrSel.test]
  cases e.getAttribute (js "id") <;> simp

theorem hasPopularityBadges_iff (d : Document) :
    (getChosenAnswerState d).hasPopularityBadges = true ↔ Spec.popularityBadgePresent d := by
  simp only [getChosenAnswerState, Bool.or_eq_true, querySelectorIn_isSome,
    matchesSelector_single, Spec.popularityBadgePresent, matchesCompound_idStartsWith,
    matchesCompound_selClasses]
  have hne : (js "popularity_badge").isEmpty = false := by decide
  constructor
  · rintro (⟨e, he, hd, v, hv, -, hp⟩ | ⟨e, he, hd, hc⟩)
    · exact ⟨e, he, hd, Or.inl ⟨v, hv, hp⟩⟩
    · exact ⟨e, he, hd, Or.inr (hc "score-badge" (by simp))⟩
  · rintro ⟨e, he, hd, ⟨v, hv, hp⟩ | hc⟩
    · exact Or.inl ⟨e, he, hd, v, hv, hne, hp⟩
    · refine Or.inr ⟨e, he, hd, ?_⟩
      intro k hk
      simp only [List.mem_singleton] at hk
      subst hk; exact hc

theorem head?_filter_eq_find? {α : Type} (p : α → Bool) (l : List α) :
    (l.filter p).head? = l.find? p := by
  induction l with
  | nil => rfl
  | cons a l ih =>
    by_cases h : p a = true
    · simp [List.filter_cons, List.find?_cons, h]
    · simp [List.filter_cons, List.find?_cons, h, ih]

theorem submitButtonVisible_iff (d : Document) :
    (getChosenAnswerState d).submitButtonVisible = true ↔ Spec.submitControlVisible d := by
  simp only [getChosenAnswerState, Spec.submitControlVisible, querySelector, querySelectorAll,
    head?_filter_eq_find?]
  have : (matchesSelector d [[selId "submit_answer"]]) =
      fun e => e.getAttribute (js "id") == some (js "submit_answer") := by
    funext e
    rw [matchesSelector_single, matchesCompound_selId]
  rw [this]

theorem isChosen_eq (d : Document) :
    (getChosenAnswerState d).isChosen =
      ((getChosenAnswerState d).alertEl.isSome &&
        ((getChosenAnswerState d).hasResultStyledOption ||
          (getChosenAnswerState d).hasPopularityBadges ||
          !(getChosenAnswerState d).submitButtonVisible)) := rfl

theorem isChosen_iff_signals (d : Document) :
    (getChosenAnswerState d).isChosen = true ↔
      (Spec.alertPresent d ∧
        (Spec.resultStyledOptionPresent d ∨ Spec.popularityBadgePresent d ∨
          ¬ Spec.submitControlVisible d)) := by
  rw [isChosen_eq, ← alertEl_isSome, ← hasResultStyledOption_iff, ← hasPopularityBadges_iff,
    ← submitButtonVisible_iff]
  simp only [Bool.and_eq_true, Bool.or_eq_true, Bool.not_eq_true', Bool.not_eq_true, or_assoc]

/-- C1: `getChosenAnswerState` returns `isChosen = true` exactly when a visible
success- or danger-style alert exists and at least one of the three secondary
signals holds (result-styled option, popularity or score badge, submit control
not visible); and each of the 16 combinations of the four signals occurs on
some page, where `isChosen` has the value of the formula. -/
theorem getChosenAnswerState_isChosen_iff :
    (∀ d : Document, (getChosenAnswerState d).isChosen = true ↔
      (Spec.alertPresent d ∧
        (Spec.resultStyledOptionPresent d ∨ Spec.popularityBadgePresent d ∨
          ¬ Spec.submitControlVisible d))) ∧
    (∀ a r p s : Bool, ∃ d : Document,
      (Spec.alertPresent d ↔ a = true) ∧ (Spec.resultStyledOptionPresent d ↔ r = true) ∧
      (Spec.popularityBadgePresent d ↔ p = true) ∧ (Spec.submitControlVisible d ↔ s = true) ∧
      (getChosenAnswerState d).isChosen = (a && (r || p || !s))) := by
  constructor
  · exact isChosen_iff_signals
  · intro a r p s
    refine ⟨signalDocument a r p s, ?_⟩
    rw [← alertEl_isSome, ← hasResultStyledOption_iff, ← hasPopularityBadges_iff,
      ← submitButtonVisible_iff]
    cases a <;> cases r <;> cases p <;> cases s <;> decide

/-! ## The pass, case by case -/

theorem isEmpty_eq_false_iff {α : Type} (l : List α) : l.isEmpty = false ↔ l ≠ [] := by
  cases l <;> simp

theorem isChosen_alertEl {d : Document} (h : (getChosenAnswerState d).isChosen = true) :
    ∃ a, (getChosenAnswerState d).alertEl = some a := by
  rw [isChosen_eq, Bool.and_eq_true] at h
  exact Option.isSome_iff_exists.1 h.1

theorem evaluateInjection_notReady (fresh : Nat) (st : State) (d : Document) (h : ¬ ready d) :
    evaluateInjection fresh st d =
      { state := (removeButton st d).1, document := (removeButton st d).2, created := none } := by
  unfold evaluateInjection
  simp only []
  by_cases h1 : (!(getChosenAnswerState d).isChosen || (getChosenAnswerState d).alertEl.isNone ||
      (extractText (getChosenAnswerState d).alertEl).isEmpty) = true
  · rw [if_pos h1]
  · rw [if_neg h1]
    by_cases h2 : (extractText (findQuestionEl d)).isEmpty = true
    · rw [if_pos h2]
    · exfalso
      apply h
      simp only [Bool.or_eq_true, Bool.not_eq_true', not_or, Bool.not_eq_false] at h1
      simp only [Bool.not_eq_true] at h1 h2
      exact ⟨h1.1.1, (isEmpty_eq_false_iff _).1 h2, (isEmpty_eq_false_iff _).1 h1.2⟩

theorem evaluateInjection_ready (fresh : Nat) (st : State) (d : Document) (h : ready d) :
    evaluateInjection fresh st d =
      (let r :=
        if st.lastQuestionSignature ≠ passSignature d then
          removeButton { st with lastQuestionSignature := passSignature d } d
        else (st, d)
      if r.1.button.isSome then { state := r.1, document := r.2, created := none }
      else
        match (getChosenAnswerState d).alertEl with
        | some a =>
          match (a.afterRemove st.button).parent with
          | some p =>
            { state := { r.1 with button := some fresh }
              document := r.2.insertBefore p (createButton fresh) (a.afterRemove st.button).ref
              created := some fresh }
          | none =>
            { state := { r.1 with button := some fresh }
              document := r.2.appendChild r.2.body (createButton fresh)
              created := some fresh }
        | none =>
          { state := { r.1 with button := some fresh }
            document := r.2.appendChild r.2.body (createButton fresh)
            created := some fresh }) := by
  obtain ⟨hc, hq, ha⟩ := h
  obtain ⟨a, hael⟩ := isChosen_alertEl hc
  unfold evaluateInjection
  simp only []
  have h1 : (!(getChosenAnswerState d).isChosen || (getChosenAnswerState d).alertEl.isNone ||
      (extractText (getChosenAnswerState d).alertEl).isEmpty) = false := by
    rw [hc, hael]
    rw [hael] at ha
    simp [ha]
  have h2 : (extractText (findQuestionEl d)).isEmpty = false := (isEmpty_eq_false_iff _).2 hq
  rw [h1, h2]
  simp only [Bool.false_eq_true, if_false, passSignature, hael, Option.orElse]
  rfl

theorem removeButton_button (st : State) (d : Document) : (removeButton st d).1.button = none := by
  unfold removeButton
  cases h : st.button <;> simp [h]

theorem removeButton_document (st : State) (d : Document) (b : Nat) (h : st.button = some b) :
    (removeButton st d).2 = d.remove b := by
  simp [removeButton, h]

theorem removeButton_none (st : State) (d : Document) (h : st.button = none) :
    removeButton st d = (st, d) := by
  simp [removeButton, h]

theorem removeButton_some (st : State) (d : Document) (b : Nat) (h : st.button = some b) :
    removeButton st d = ({ st with button := none }, d.remove b) := by
  simp [removeButton, h]

/-- C3: if the controller holds a trigger when a pass ends, then during that
pass a visible success or danger alert existed, one of the three secondary
signals held, and the normalized question and answer texts were non-empty.
In particular, when no such alert is visible, `isChosen` is false, no trigger
is held after the pass, none is created, and a trigger held before has been
removed from the document. -/
theorem evaluateInjection_holds_trigger_only_when_ready (fresh : Nat) (st : State) (d : Document) :
    ((evaluateInjection fresh st d).state.button ≠ none →
      Spec.alertPresent d ∧
      (Spec.resultStyledOptionPresent d ∨ Spec.popularityBadgePresent d ∨
        ¬ Spec.submitControlVisible d) ∧
      extractText (findQuestionEl d) ≠ [] ∧
      extractText (getChosenAnswerState d).alertEl ≠ []) ∧
    (¬ Spec.alertPresent d →
      (getChosenAnswerState d).isChosen = false ∧
      (evaluateInjection fresh st d).state.button = none ∧
      (evaluateInjection fresh st d).created = none ∧
      ∀ b, st.button = some b → (evaluateInjection fresh st d).document = d.remove b) := by
  constructor
  · intro hb
    by_cases hr : ready d
    · obtain ⟨hc, hq, ha⟩ := hr
      obtain ⟨h1, h2⟩ := (isChosen_iff_signals d).1 hc
      exact ⟨h1, h2, hq, ha⟩
    · rw [evaluateInjection_notReady fresh st d hr] at hb
      exact absurd (removeButton_button st d) hb
  · intro hno
    have hc : (getChosenAnswerState d).isChosen = false := by
      rw [← Bool.not_eq_true]
      intro h
      exact hno ((isChosen_iff_signals d).1 h).1
    have hr : ¬ ready d := fun h => by rw [h.1] at hc; exact Bool.noConfusion hc
    rw [evaluateInjection_notReady fresh st d hr]
    exact ⟨hc, removeButton_button st d, rfl, fun b hb => removeButton_document st d b hb⟩

theorem evaluateInjection_holds_trigger_only_when_ready_witness :
    (evaluateInjection 100 State.initial answeredDocument).state.button ≠ none ∧
    Spec.alertPresent answeredDocument ∧
    (Spec.resultStyledOptionPresent answeredDocument ∨
      Spec.popularityBadgePresent answeredDocument ∨
      ¬ Spec.submitControlVisible answeredDocument) ∧
    extractText (findQuestionEl answeredDocument) ≠ [] ∧
    extractText (getChosenAnswerState answeredDocument).alertEl ≠ [] :=
  ⟨by decide,
    (evaluateInjection_holds_trigger_only_when_ready 100 State.initial answeredDocument).1
      (by decide)⟩

/-! ## Document updates -/

theorem mem_remove {d : Document} {b : Nat} {e : Element} (h : e ∈ (d.remove b).nodes) :
    e ∈ d.nodes ∧ e.ref ≠ b := by
  simp only [Document.remove, List.mem_filter, Bool.not_eq_true', Bool.or_eq_false_iff,
    beq_eq_false_iff_ne, ne_eq] at h
  exact ⟨h.1, h.2.1⟩

theorem remove_sublist (d : Document) (b : Nat) : (d.remove b).nodes.Sublist d.nodes := by
  simp only [Document.remove]
  exact List.filter_sublist _

theorem insertBeforeNodes_spec (p : Nat) (n : Element) (a : Nat) (l : List Element) :
    ((∀ e ∈ l, e.ref ≠ a) ∧ insertBeforeNodes p n a l = l) ∨
    ∃ pre x post, l = pre ++ x :: post ∧ x.ref = a ∧ (∀ e ∈ pre, e.ref ≠ a) ∧
      insertBeforeNodes p n a l = pre ++ { n with parent := some p } :: x :: post := by
  induction l with
  | nil => left; simp [insertBeforeNodes]
  | cons e rest ih =>
    by_cases he : e.ref = a
    · right
      refine ⟨[], e, rest, rfl, he, by simp, ?_⟩
      simp [insertBeforeNodes, he]
    · rcases ih with ⟨h1, h2⟩ | ⟨pre, x, post, h1, h2, h3, h4⟩
      · left
        refine ⟨?_, ?_⟩
        · intro y hy
          rcases List.mem_cons.1 hy with rfl | hy
          · exact he
          · exact h1 y hy
        · simp [insertBeforeNodes, he, h2]
      · right
        refine ⟨e :: pre, x, post, by rw [h1]; rfl, h2, ?_, ?_⟩
        · intro y hy
          rcases List.mem_cons.1 hy with rfl | hy
          · exact he
          · exact h3 y hy
        · simp [insertBeforeNodes, he, h4]

theorem insertBefore_insertedOrSame (d : Document) (p : Nat) (n : Element) (a : Nat) :
    InsertedOrSame { n with parent := some p } d.nodes (d.insertBefore p n a).nodes := by
  rcases insertBeforeNodes_spec p n a d.nodes with ⟨-, h⟩ | ⟨pre, x, post, h1, -, -, h4⟩
  · exact Or.inl h
  · exact Or.inr ⟨pre, x :: post, h1, h4⟩

theorem appendChild_insertedOrSame (d : Document) (p : Nat) (n : Element) :
    InsertedOrSame { n with parent := some p } d.nodes (d.appendChild p n).nodes := by
  unfold Document.appendChild
  simp only []
  split
  · exact Or.inl rfl
  · refine Or.inr ⟨_, _, ?_, rfl⟩
    rw [← List.reverse_append, List.takeWhile_append_dropWhile, List.reverse_reverse]

theorem InsertedOrSame.mem {n : Element} {l l' : List Element} (h : InsertedOrSame n l l')
    {e : Element} (he : e ∈ l') : e = n ∨ e ∈ l := by
  rcases h with rfl | ⟨pre, post, rfl, rfl⟩
  · exact Or.inr he
  · simp only [List.mem_append, List.mem_cons] at he ⊢
    tauto

theorem InsertedOrSame.nodup {n : Element} {l l' : List Element} (h : InsertedOrSame n l l')
    (hl : (l.map fun e => e.ref).Nodup) (hn : n.ref ∉ l.map fun e => e.ref) :
    (l'.map fun e => e.ref).Nodup := by
  rcases h with rfl | ⟨pre, post, rfl, rfl⟩
  · exact hl
  · simp only [List.map_append, List.map_cons] at hl hn ⊢
    have : ((n.ref :: (pre.map fun e => e.ref)) ++ post.map fun e => e.ref).Nodup := by
      rw [List.cons_append]
      exact List.nodup_cons.2 ⟨hn, hl⟩
    exact (List.perm_middle.symm.nodup_iff.1 this)

/-! ## At most one trigger -/

theorem removeButton_onlyHeld {created : List Nat} {st : State} {d : Document}
    (h : OnlyHeld created st d) :
    OnlyHeld created (removeButton st d).1 (removeButton st d).2 ∧
      (removeButton st d).2.nodes.Sublist d.nodes := by
  cases hb : st.button with
  | none =>
    rw [removeButton_none st d hb]
    exact ⟨h, List.Sublist.refl _⟩
  | some b =>
    rw [removeButton_some st d b hb]
    refine ⟨?_, remove_sublist d b⟩
    intro e he hc
    obtain ⟨hmem, hne⟩ := mem_remove he
    have := h e hmem hc
    rw [hb] at this
    exact absurd (Option.some.inj this).symm hne

theorem onlyHeld_none_absent {created : List Nat} {st : State} {d : Document}
    (h : OnlyHeld created st d) (hb : st.button = none) : ∀ e ∈ d.nodes, e.ref ∉ created := by
  intro e he hc
  have := h e he hc
  rw [hb] at this
  exact Option.noConfusion this

theorem insert_onlyHeld {created : List Nat} {st : State} {l l' : List Element} {body : Nat}
    {n : Element} (hins : InsertedOrSame n l l')
    (habs : ∀ e ∈ l, e.ref ∉ created) (hfresh : n.ref ∉ l.map fun e => e.ref) :
    OnlyHeld (n.ref :: created) { st with button := some n.ref } { nodes := l', body := body } := by
  intro e he hc
  rcases hins.mem he with rfl | hl
  · rfl
  · rcases List.mem_cons.1 hc with hc | hc
    · exact absurd (hc ▸ List.mem_map_of_mem (fun e => e.ref) hl) hfresh
    · exact absurd hc (habs e hl)

theorem refs_nodup_of_sublist {d d' : Document} (h : d'.nodes.Sublist d.nodes)
    (hn : d.refs.Nodup) : d'.refs.Nodup :=
  List.Sublist.nodup (List.Sublist.map (fun e : Element => e.ref) h) hn

theorem Session.step_onlyHeld {s : Session} {x : Step}
    (hs : OnlyHeld s.created s.state s.document) (hx : s.admits x) :
    OnlyHeld (s.step x).created (s.step x).state (s.step x).document ∧
      (s.step x).document.refs.Nodup := by
  obtain ⟨hf1, hf2, hnd, hpage⟩ := hx
  have hd : OnlyHeld s.created s.state x.document := by
    intro e he hc
    rcases hpage e.ref (List.mem_map_of_mem (fun e => e.ref) he) hc with h | h
    · obtain ⟨e0, he0, hr⟩ := List.mem_map.1 h
      have := hs e0 he0 (by rw [hr]; exact hc)
      rw [hr] at this
      exact this
    · exact h
  unfold Session.step
  simp only []
  by_cases hr : ready x.document
  · rw [evaluateInjection_ready x.fresh s.state x.document hr]
    simp only []
    -- the state and document once the signature check is done
    have hsig : ∀ r : State × Document,
        r = (if s.state.lastQuestionSignature ≠ passSignature x.document then
          removeButton { s.state with lastQuestionSignature := passSignature x.document } x.document
          else (s.state, x.document)) →
        OnlyHeld s.created r.1 r.2 ∧ r.2.nodes.Sublist x.document.nodes := by
      intro r hr'
      split at hr'
      · rw [hr']
        exact @removeButton_onlyHeld _ { s.state with lastQuestionSignature := _ } _ hd
      · rw [hr']
        exact ⟨hd, List.Sublist.refl _⟩
    generalize (if s.state.lastQuestionSignature ≠ passSignature x.document then
          removeButton { s.state with lastQuestionSignature := passSignature x.document } x.document
          else (s.state, x.document)) = r at hsig
    obtain ⟨h1, h2⟩ := hsig r rfl
    have hnd1 : r.2.refs.Nodup := refs_nodup_of_sublist h2 hnd
    by_cases hb : r.1.button.isSome = true
    · rw [if_pos hb]
      exact ⟨h1, hnd1⟩
    · rw [if_neg hb]
      have hb' : r.1.button = none := by
        cases h : r.1.button with
        | none => rfl
        | some b => rw [h] at hb; exact absurd rfl hb
      have habs := onlyHeld_none_absent h1 hb'
      have hfresh : x.fresh ∉ r.2.nodes.map fun e => e.ref :=
        fun h => hf2 ((h2.map fun e => e.ref).subset h)
      have fin : ∀ (par : Nat) (d' : Document),
          InsertedOrSame { createButton x.fresh with parent := some par } r.2.nodes d'.nodes →
          OnlyHeld (x.fresh :: s.created) { r.1 with button := some x.fresh } d' ∧
            d'.refs.Nodup := by
        intro par d' hins
        refine ⟨?_, hins.nodup hnd1 hfresh⟩
        exact @insert_onlyHeld _ r.1 _ _ d'.body _ hins habs hfresh
      cases ha : (getChosenAnswerState x.document).alertEl with
      | none => exact fin _ _ (appendChild_insertedOrSame _ _ _)
      | some a =>
        cases hp : (a.afterRemove s.state.button).parent with
        | none =>
          simp only [hp]
          exact fin _ _ (appendChild_insertedOrSame _ _ _)
        | some p =>
          simp only [hp]
          exact fin _ _ (insertBefore_insertedOrSame _ _ _ _)
  · rw [evaluateInjection_notReady x.fresh s.state x.document hr]
    obtain ⟨h1, h2⟩ := removeButton_onlyHeld hd
    exact ⟨h1, refs_nodup_of_sublist h2 hnd⟩

theorem length_le_one_of_nodup_const {l : List Nat} {b : Nat} (hn : l.Nodup)
    (hb : ∀ x ∈ l, x = b) : l.length ≤ 1 := by
  match l, hn, hb with
  | [], _, _ => simp
  | [_], _, _ => simp
  | x :: y :: rest, hn, hb =>
    have hx := hb x (by simp)
    have hy := hb y (by simp)
    rw [List.nodup_cons] at hn
    exact absurd (by rw [hx, hy]; simp) hn.1

theorem attachedTriggers_length_le_one {s : Session}
    (h1 : OnlyHeld s.created s.state s.document) (h2 : s.document.refs.Nodup) :
    s.attachedTriggers.length ≤ 1 := by
  have hsub : s.attachedTriggers.Sublist s.document.nodes := List.filter_sublist _
  have hn : (s.attachedTriggers.map fun e : Element => e.ref).Nodup :=
    List.Sublist.nodup (List.Sublist.map (fun e : Element => e.ref) hsub) h2
  cases hb : s.state.button with
  | none =>
    have : s.attachedTriggers = [] := by
      rw [Session.attachedTriggers, List.filter_eq_nil_iff]
      intro e he hc
      exact onlyHeld_none_absent h1 hb e he (of_decide_eq_true hc)
    rw [this]; simp
  | some b =>
    have hall : ∀ x ∈ s.attachedTriggers.map (fun e : Element => e.ref), x = b := by
      intro x hx
      obtain ⟨e, he, rfl⟩ := List.mem_map.1 hx
      rw [Session.attachedTriggers, List.mem_filter] at he
      have := h1 e he.1 (of_decide_eq_true he.2)
      rw [hb] at this
      exact (Option.some.inj this).symm
    have := length_le_one_of_nodup_const hn hall
    rwa [List.length_map] at this

theorem Session.initial_sound (d : Document) : (Session.initial d).Sound := by
  refine ⟨fun e _ hc => absurd hc (List.not_mem_nil _), ?_⟩
  simp [Session.attachedTriggers, Session.initial]

theorem Session.step_sound {s : Session} {x : Step} (hs : s.Sound) (hx : s.admits x) :
    (s.step x).Sound :=
  ⟨(Session.step_onlyHeld hs.1 hx).1,
    attachedTriggers_length_le_one (Session.step_onlyHeld hs.1 hx).1
      (Session.step_onlyHeld hs.1 hx).2⟩

theorem Session.run_sound {s : Session} {xs : List Step} (hs : s.Sound) (hx : s.admitsAll xs) :
    (s.run xs).Sound := by
  induction xs generalizing s with
  | nil => exact hs
  | cons x xs ih => exact ih (Session.step_sound hs hx.1) hx.2

theorem Session.admitsAll_take {s : Session} {xs : List Step} (hx : s.admitsAll xs) (n : Nat) :
    s.admitsAll (xs.take n) := by
  induction xs generalizing s n with
  | nil => simpa using hx
  | cons x xs ih =>
    cases n with
    | zero => trivial
    | succ n => exact ⟨hx.1, ih hx.2 n⟩

/-- C2 (as amended): starting from the initial controller state, over every
finite sequence of evaluation passes on documents the page may have changed in
between (each pass admitted: a new identity for a created element, distinct
elements in the document, and no engine-created element put back by the page
other than the one still held), the number of engine-created trigger elements
attached to the document after each pass is 0 or 1. -/
theorem attached_triggers_at_most_one (d0 : Document) (xs : List Step)
    (h : (Session.initial d0).admitsAll xs) (n : Nat) :
    (((Session.initial d0).run (xs.take n)).attachedTriggers.length = 0 ∨
      ((Session.initial d0).run (xs.take n)).attachedTriggers.length = 1) := by
  have := (Session.run_sound (Session.initial_sound d0) (Session.admitsAll_take h n)).2
  omega

theorem attached_triggers_at_most_one_witness :
    (Session.initial answeredDocument).admitsAll exampleSession ∧
    (((Session.initial answeredDocument).run (exampleSession.take 4)).attachedTriggers.length = 0 ∨
      ((Session.initial answeredDocument).run (exampleSession.take 4)).attachedTriggers.length = 1) :=
  ⟨by decide, attached_triggers_at_most_one answeredDocument exampleSession (by decide) 4⟩

/-- C2 (as stated) fails: over arbitrary page states two engine-created
triggers can be attached.  The first pass creates the trigger 100; on the
second pass the page shows another question with the trigger still in place,
so the pass removes 100 and creates 101; before the third pass the page puts
the element 100 back.  The third pass finds the signature unchanged and a
trigger held, and returns: the triggers 101 and 100 are both attached.  The
first two passes are admitted, the third has a new identity and distinct
elements, and fails only the rule that the page does not put back an
engine-created element that is neither in the document nor held. -/
theorem reattached_trigger_gives_two :
    ((Session.initial answeredDocument).run (reattachSession.take 1)).attachedTriggers.length = 1 ∧
    ((Session.initial answeredDocument).run (reattachSession.take 2)).document =
      nextQuestionDocument [101] ∧
    ((Session.initial answeredDocument).run (reattachSession.take 2)).state.button = some 101 ∧
    ((Session.initial answeredDocument).run (reattachSession.take 2)).created = [101, 100] ∧
    ((Session.initial answeredDocument).run (reattachSession.take 2)).attachedTriggers.length = 1 ∧
    ((Session.initial answeredDocument).run reattachSession).document =
      nextQuestionDocument [101, 100] ∧
    ((Session.initial answeredDocument).run reattachSession).state.button = some 101 ∧
    (((Session.initial answeredDocument).run reattachSession).attachedTriggers.map fun e => e.ref) =
      [101, 100] ∧
    ((Session.initial answeredDocument).run reattachSession).attachedTriggers.length = 2 ∧
    (Session.initial answeredDocument).admitsAll (reattachSession.take 2) ∧
    102 ∉ ((Session.initial answeredDocument).run (reattachSession.take 2)).created ∧
    102 ∉ (nextQuestionDocument [101, 100]).refs ∧
    (nextQuestionDocument [101, 100]).refs.Nodup ∧
    ¬ (Session.initial answeredDocument).admitsAll reattachSession := by
  decide

theorem mem_remove_iff {d : Document} {b : Nat} {e : Element} :
    e ∈ (d.remove b).nodes ↔ e ∈ d.nodes ∧ e.ref ≠ b ∧ isDescendantOf d b e = false := by
  simp only [Document.remove, List.mem_filter, Bool.not_eq_true', Bool.or_eq_false_iff,
    beq_eq_false_iff_ne, ne_eq]

theorem alertEl_mem {d : Document} {a : Element} (h : (getChosenAnswerState d).alertEl = some a) :
    a ∈ d.nodes := by
  simp only [getChosenAnswerState] at h
  cases hs : findVisibleElement d successAlertSelectors with
  | some x =>
    rw [hs] at h
    simp only [Option.orElse] at h
    cases h
    exact (findVisibleElement_some hs).1
  | none =>
    rw [hs] at h
    simp only [Option.orElse] at h
    exact (findVisibleElement_some h).1

theorem insertBefore_attaches {d : Document} {p : Nat} {n : Element} {a : Nat}
    (h : a ∈ d.refs) : n.ref ∈ (d.insertBefore p n a).refs := by
  rcases insertBeforeNodes_spec p n a d.nodes with ⟨h1, -⟩ | ⟨pre, x, post, -, -, -, h4⟩
  · obtain ⟨e, he, hr⟩ := List.mem_map.1 h
    exact absurd hr (h1 e he)
  · simp only [Document.refs, Document.insertBefore, h4, List.map_append, List.map_cons,
      List.mem_append, List.mem_cons, true_or, or_true]

theorem appendChild_attaches {d : Document} {p : Nat} {n : Element}
    (h : p ∈ d.refs) : n.ref ∈ (d.appendChild p n).refs := by
  obtain ⟨e, he, hr⟩ := List.mem_map.1 h
  have hne : ((d.nodes.reverse.dropWhile fun e => !inSubtree d p e).reverse).isEmpty = false := by
    rw [isEmpty_eq_false_iff]
    intro hnil
    rw [List.reverse_eq_nil_iff, List.dropWhile_eq_nil_iff] at hnil
    have := hnil e (List.mem_reverse.2 he)
    simp [inSubtree, hr] at this
  unfold Document.appendChild
  simp only [hne, Bool.false_eq_true, if_false, Document.refs, List.map_append, List.map_cons,
    List.mem_append, List.mem_cons, true_or, or_true]

theorem evaluateInjection_ready_split (fresh : Nat) (st : State) (d : Document) (h : ready d)
    (a : Element) (ha : (getChosenAnswerState d).alertEl = some a) :
    evaluateInjection fresh st d =
      if (afterSignatureCheck st d).1.button.isSome then
        { state := (afterSignatureCheck st d).1
          document := (afterSignatureCheck st d).2
          created := none }
      else placeTrigger fresh (afterSignatureCheck st d) (a.afterRemove st.button) := by
  rw [evaluateInjection_ready fresh st d h]
  simp only [ha]
  rfl

theorem afterSignatureCheck_same {st : State} {d : Document}
    (h : st.lastQuestionSignature = passSignature d) : afterSignatureCheck st d = (st, d) := by
  simp [afterSignatureCheck, h]

theorem afterSignatureCheck_changed_none {st : State} {d : Document}
    (h : st.lastQuestionSignature ≠ passSignature d) (hb : st.button = none) :
    afterSignatureCheck st d = ({ st with lastQuestionSignature := passSignature d }, d) := by
  rw [afterSignatureCheck, if_pos h]
  exact removeButton_none _ _ hb

theorem afterSignatureCheck_changed_some {st : State} {d : Document} {b : Nat}
    (h : st.lastQuestionSignature ≠ passSignature d) (hb : st.button = some b) :
    afterSignatureCheck st d =
      ({ st with lastQuestionSignature := passSignature d, button := none }, d.remove b) := by
  rw [afterSignatureCheck, if_pos h]
  exact removeButton_some _ _ b hb

theorem placeTrigger_button (fresh : Nat) (r : State × Document) (a : Element) :
    (placeTrigger fresh r a).state.button = some fresh ∧
      (placeTrigger fresh r a).created = some fresh := by
  unfold placeTrigger
  cases a.parent <;> exact ⟨rfl, rfl⟩

theorem buildNotePayload_eq_none_iff (pruned : Element → List Nat → JsString) (st : State)
    (d : Document) :
    buildNotePayload pruned st d = none ↔
      questionHtmlOf d = [] ∨ extractAlertSuccessInfoOnlyHtml pruned d = [] := by
  unfold buildNotePayload
  simp only []
  split
  · rename_i h
    simp only [Bool.or_eq_true, List.isEmpty_iff] at h
    simp [h]
  · rename_i h
    simp only [Bool.or_eq_true, List.isEmpty_iff] at h
    simp [h]

/-- C5: `buildNotePayload` returns null exactly when the question HTML (the
trimmed `innerHTML` of the `#question_only` node) is empty or the explanation
HTML (the cleaned HTML of the result alert) is empty.  It returns null when
the explanation HTML is empty whatever the question HTML is; and an empty
correct-option HTML does not make it null, as happens on a concrete page. -/
theorem buildNotePayload_null_iff :
    (∀ (pruned : Element → List Nat → JsString) (st : State) (d : Document),
      (buildNotePayload pruned st d = none ↔
        questionHtmlOf d = [] ∨ extractAlertSuccessInfoOnlyHtml pruned d = []) ∧
      (extractAlertSuccessInfoOnlyHtml pruned d = [] → buildNotePayload pruned st d = none) ∧
      (extractGreenOptionHtml d = [] → questionHtmlOf d ≠ [] →
        extractAlertSuccessInfoOnlyHtml pruned d ≠ [] → buildNotePayload pruned st d ≠ none)) ∧
    (extractGreenOptionHtml wrongAnswerDocument = [] ∧
      buildNotePayload unpruned State.initial wrongAnswerDocument ≠ none) := by
  refine ⟨fun pruned st d => ⟨buildNotePayload_eq_none_iff pruned st d, ?_, ?_⟩, by decide⟩
  · intro h
    exact (buildNotePayload_eq_none_iff pruned st d).2 (Or.inr h)
  · intro _ hq he hnone
    rcases (buildNotePayload_eq_none_iff pruned st d).1 hnone with h | h
    · exact hq h
    · exact he h

/-! ## The request -/

theorem arrayFromSet_fold_nodup (xs acc : List JsString) (h : acc.Nodup) :
    (xs.foldl (fun acc x => if x ∈ acc then acc else acc ++ [x]) acc).Nodup := by
  induction xs generalizing acc with
  | nil => exact h
  | cons x xs ih =>
    simp only [List.foldl_cons]
    apply ih
    by_cases hx : x ∈ acc
    · rw [if_pos hx]; exact h
    · rw [if_neg hx]
      exact List.Nodup.append h (List.nodup_singleton x) (by
        intro y hy hy1
        rw [List.mem_singleton] at hy1
        exact hx (hy1 ▸ hy))

theorem arrayFromSet_fold_mem (xs acc : List JsString) (t : JsString) :
    t ∈ xs.foldl (fun acc x => if x ∈ acc then acc else acc ++ [x]) acc ↔ t ∈ acc ∨ t ∈ xs := by
  induction xs generalizing acc with
  | nil => simp
  | cons x xs ih =>
    simp only [List.foldl_cons]
    rw [ih]
    by_cases hx : x ∈ acc
    · rw [if_pos hx]
      simp only [List.mem_cons]
      constructor
      · rintro (h | h)
        · exact Or.inl h
        · exact Or.inr (Or.inr h)
      · rintro (h | h | h)
        · exact Or.inl h
        · exact Or.inl (h ▸ hx)
        · exact Or.inr h
    · rw [if_neg hx]
      simp only [List.mem_append, List.mem_singleton, List.mem_cons]
      tauto

theorem arrayFromSet_nodup (xs : List JsString) : (arrayFromSet xs).Nodup :=
  arrayFromSet_fold_nodup xs [] List.nodup_nil

theorem mem_arrayFromSet (xs : List JsString) (t : JsString) : t ∈ arrayFromSet xs ↔ t ∈ xs := by
  simp [arrayFromSet, arrayFromSet_fold_mem]

theorem mem_normalizeTags (tagString t : JsString) :
    t ∈ normalizeTags tagString ↔ t ≠ [] ∧ ∃ piece ∈ split 44 tagString, t = trim piece := by
  simp only [normalizeTags, List.mem_filter, List.mem_map, Bool.not_eq_true', isEmpty_eq_false_iff]
  constructor
  · rintro ⟨⟨p, hp, rfl⟩, hne⟩
    exact ⟨hne, p, hp, rfl⟩
  · rintro ⟨hne, p, hp, rfl⟩
    exact ⟨⟨p, hp, rfl⟩, hne⟩

theorem backHtml_eq (correctHtml explanationHtml : JsString) (h : explanationHtml ≠ []) :
    join (js "<br><br>") ([correctHtml, explanationHtml].filter fun part => !part.isEmpty) =
      if correctHtml = [] then explanationHtml
      else correctHtml ++ js "<br><br>" ++ explanationHtml := by
  have he : explanationHtml.isEmpty = false := (isEmpty_eq_false_iff _).2 h
  by_cases hc : correctHtml = []
  · subst hc
    simp [List.filter, he, join]
  · have hc' : correctHtml.isEmpty = false := (isEmpty_eq_false_iff _).2 hc
    simp [List.filter, he, hc', hc, join]

/-- C6 (as amended): whenever `buildNotePayload` succeeds, the request is
`addNote`, version 6, with the deck and model of the settings, Front the
question HTML, Back the explanation HTML alone when the correct-option HTML is
empty and otherwise the correct-option HTML, the separator `<br><br>` and the
explanation HTML, `allowDuplicate` false, and as tags the configured
comma-separated tags (each trimmed, empty entries dropped) followed by
`passmedicine`, each value kept once at its first place.  The default tags
give `passmedicine`, `passmed2anki`. -/
theorem buildNotePayload_request (pruned : Element → List Nat → JsString) (st : State)
    (d : Document) (req : NoteRequest) (h : buildNotePayload pruned st d = some req) :
    req =
      { action := js "addNote"
        version := 6
        params :=
          { note :=
              { deckName := st.settings.deckName
                modelName := st.settings.noteType
                fields :=
                  { Front := questionHtmlOf d
                    Back :=
                      if extractGreenOptionHtml d = [] then extractAlertSuccessInfoOnlyHtml pruned d
                      else extractGreenOptionHtml d ++ js "<br><br>" ++
                        extractAlertSuccessInfoOnlyHtml pruned d }
                tags := arrayFromSet (normalizeTags st.settings.tags ++ [js "passmedicine"])
                options := { allowDuplicate := false } } } } ∧
    req.params.note.tags.Nodup ∧
    (∀ t, t ∈ req.params.note.tags ↔
      (t = js "passmedicine" ∨ (t ≠ [] ∧ ∃ piece ∈ split 44 st.settings.tags, t = trim piece))) ∧
    (st.settings.tags = js "passmedicine,passmed2anki" →
      req.params.note.tags = [js "passmedicine", js "passmed2anki"]) := by
  have hnot : ¬ (questionHtmlOf d = [] ∨ extractAlertSuccessInfoOnlyHtml pruned d = []) := by
    intro hn
    rw [(buildNotePayload_eq_none_iff pruned st d).2 hn] at h
    exact Option.noConfusion h
  have hexp : extractAlertSuccessInfoOnlyHtml pruned d ≠ [] := fun hn => hnot (Or.inr hn)
  have hq : questionHtmlOf d ≠ [] := fun hn => hnot (Or.inl hn)
  unfold buildNotePayload at h
  simp only [(isEmpty_eq_false_iff _).2 hq, (isEmpty_eq_false_iff _).2 hexp, Bool.or_self,
    Bool.false_eq_true, if_false, Option.some.injEq, backHtml_eq _ _ hexp] at h
  subst h
  refine ⟨rfl, arrayFromSet_nodup _, ?_, ?_⟩
  · intro t
    simp only [mem_arrayFromSet, List.mem_append, List.mem_singleton, mem_normalizeTags]
    exact or_comm
  · intro ht
    simp only [ht]
    decide

theorem buildNotePayload_request_witness :
    buildNotePayload unpruned State.initial answeredDocument =
      some
        { action := js "addNote"
          version := 6
          params :=
            { note :=
                { deckName := js "Passmedicine"
                  modelName := js "Basic"
                  fields :=
                    { Front := js "What is the first-line treatment for X?"
                      Back := js "Drug A<br><br>" ++ List.replicate 80 120 }
                  tags := [js "passmedicine", js "passmed2anki"]
                  options := { allowDuplicate := false } } } } ∧
    ([js "passmedicine", js "passmed2anki"] : List JsString).Nodup :=
  ⟨by decide,
    (buildNotePayload_request unpruned State.initial answeredDocument _
      (by decide :
        buildNotePayload unpruned State.initial answeredDocument =
          some
            { action := js "addNote"
              version := 6
              params :=
                { note :=
                    { deckName := js "Passmedicine"
                      modelName := js "Basic"
                      fields :=
                        { Front := js "What is the first-line treatment for X?"
                          Back := js "Drug A<br><br>" ++ List.replicate 80 120 }
                      tags := [js "passmedicine", js "passmed2anki"]
                      options := { allowDuplicate := false } } } })).2.1⟩

/-- C6 (as stated) fails: on a page without a green option the request is
built and its Back is the explanation HTML alone, not the (empty)
correct-option HTML joined to it by `<br><br>`. -/
theorem back_without_separator_when_no_green_option :
    extractGreenOptionHtml wrongAnswerDocument = [] ∧
    extractAlertSuccessInfoOnlyHtml unpruned wrongAnswerDocument = js "<b>Drug A</b> is right" ∧
    (buildNotePayload unpruned State.initial wrongAnswerDocument).map
      (fun req => req.params.note.fields.Back) = some (js "<b>Drug A</b> is right") ∧
    (buildNotePayload unpruned State.initial wrongAnswerDocument).map
      (fun req => req.params.note.fields.Back) ≠
      some (extractGreenOptionHtml wrongAnswerDocument ++ js "<br><br>" ++
        extractAlertSuccessInfoOnlyHtml unpruned wrongAnswerDocument) := by
  decide

/-! ## The stored signature -/

theorem removeButton_signature (st : State) (d : Document) :
    (removeButton st d).1.lastQuestionSignature = st.lastQuestionSignature := by
  unfold removeButton
  cases st.button <;> rfl

theorem afterSignatureCheck_signature (st : State) (d : Document) :
    (afterSignatureCheck st d).1.lastQuestionSignature = passSignature d := by
  unfold afterSignatureCheck
  split
  · rw [removeButton_signature]
  · rename_i h
    exact not_not.1 h

theorem placeTrigger_signature (fresh : Nat) (r : State × Document) (a : Element) :
    (placeTrigger fresh r a).state.lastQuestionSignature = r.1.lastQuestionSignature := by
  unfold placeTrigger
  cases a.parent <;> rfl

/-- C7 (as amended): after every evaluation pass in the ready state the stored
last signature is the first 120 characters of the question text, then `::`,
then the first 120 characters of the answer text; after any other pass the
stored signature is what it was before the pass. -/
theorem stored_signature_after_pass (fresh : Nat) (st : State) (d : Document) :
    (ready d →
      (evaluateInjection fresh st d).state.lastQuestionSignature =
        (extractText (findQuestionEl d)).take 120 ++ js "::" ++
          (extractText (getChosenAnswerState d).alertEl).take 120) ∧
    (¬ ready d →
      (evaluateInjection fresh st d).state.lastQuestionSignature = st.lastQuestionSignature) := by
  constructor
  · intro hr
    obtain ⟨a, ha⟩ := isChosen_alertEl hr.1
    rw [evaluateInjection_ready_split fresh st d hr a ha]
    split
    · exact afterSignatureCheck_signature st d
    · rw [placeTrigger_signature]
      exact afterSignatureCheck_signature st d
  · intro hr
    rw [evaluateInjection_notReady fresh st d hr]
    exact removeButton_signature st d

theorem stored_signature_after_pass_witness :
    ready answeredDocument ∧
    (evaluateInjection 100 State.initial answeredDocument).state.lastQuestionSignature =
      js "What is the first-line treatment for X?::" ++ List.replicate 80 120 :=
  ⟨by decide,
    (stored_signature_after_pass 100 State.initial answeredDocument).1 (by decide)⟩

/-- C7 (as stated) fails: on a page whose question is not answered yet the
pass leaves the stored signature empty, while the question text followed by
`::` and the (empty) answer text is not empty. -/
theorem signature_not_stored_when_not_ready :
    (getChosenAnswerState unansweredDocument).isChosen = false ∧
    (evaluateInjection 100 State.initial unansweredDocument).state.lastQuestionSignature = [] ∧
    (extractText (findQuestionEl unansweredDocument)).take 120 ++ js "::" ++
      (extractText (getChosenAnswerState unansweredDocument).alertEl).take 120 =
      js "What is the first-line treatment for X?::" ∧
    (evaluateInjection 100 State.initial unansweredDocument).state.lastQuestionSignature ≠
      (extractText (findQuestionEl unansweredDocument)).take 120 ++ js "::" ++
        (extractText (getChosenAnswerState unansweredDocument).alertEl).take 120 := by
  decide

/-! ## Keeping and replacing the trigger -/

theorem placeTrigger_insertedOrSame (fresh : Nat) (r : State × Document) (a : Element) :
    ∃ par, InsertedOrSame { createButton fresh with parent := some par } r.2.nodes
      (placeTrigger fresh r a).document.nodes := by
  unfold placeTrigger
  cases a.parent with
  | none => exact ⟨_, appendChild_insertedOrSame _ _ _⟩
  | some p => exact ⟨_, insertBefore_insertedOrSame _ _ _ _⟩

/-- C8: in a ready pass that begins with a trigger held, the pass keeps that
very element and changes neither the document nor the controller state, and
creates nothing, exactly when the signature of the pass equals the stored
one; when the signature differs, the old trigger is no longer in the document,
and the trigger held afterwards is the newly created element, stored together
with the new signature. -/
theorem trigger_kept_iff_same_signature (fresh : Nat) (st : State) (d : Document) (b : Nat)
    (hr : ready d) (hb : st.button = some b) (hfresh : fresh ≠ b) :
    (((evaluateInjection fresh st d).state.button = some b ∧
        (evaluateInjection fresh st d).document = d ∧
        (evaluateInjection fresh st d).state = st ∧
        (evaluateInjection fresh st d).created = none) ↔
      passSignature d = st.lastQuestionSignature) ∧
    (passSignature d ≠ st.lastQuestionSignature →
      b ∉ (evaluateInjection fresh st d).document.refs ∧
      (evaluateInjection fresh st d).state.button = some fresh ∧
      (evaluateInjection fresh st d).created = some fresh ∧
      (evaluateInjection fresh st d).state.lastQuestionSignature = passSignature d) := by
  obtain ⟨a, ha⟩ := isChosen_alertEl hr.1
  rw [evaluateInjection_ready_split fresh st d hr a ha]
  by_cases hsig : st.lastQuestionSignature = passSignature d
  · rw [afterSignatureCheck_same hsig]
    rw [if_pos (by rw [hb]; rfl)]
    exact ⟨⟨fun _ => hsig.symm, fun _ => ⟨hb, rfl, rfl, rfl⟩⟩, fun h => absurd hsig.symm h⟩
  · rw [afterSignatureCheck_changed_some hsig hb]
    rw [if_neg (by simp)]
    constructor
    · constructor
      · rintro ⟨h1, -⟩
        rw [(placeTrigger_button _ _ _).1] at h1
        exact absurd (Option.some.inj h1) hfresh
      · intro h
        exact absurd h.symm hsig
    · intro _
      refine ⟨?_, (placeTrigger_button _ _ _).1, (placeTrigger_button _ _ _).2, ?_⟩
      · intro hmem
        obtain ⟨e, he, hre⟩ := List.mem_map.1 hmem
        obtain ⟨par, hins⟩ := placeTrigger_insertedOrSame fresh
          ({ st with lastQuestionSignature := passSignature d, button := none }, d.remove b)
          (a.afterRemove st.button)
        rcases hins.mem he with h | h
        · rw [h] at hre
          exact hfresh hre
        · exact (mem_remove h).2 hre
      · rw [placeTrigger_signature]

theorem trigger_kept_iff_same_signature_witness :
    ready (evaluateInjection 100 State.initial answeredDocument).document ∧
    (evaluateInjection 100 State.initial answeredDocument).state.button = some 100 ∧
    ((evaluateInjection 101 (evaluateInjection 100 State.initial answeredDocument).state
        (evaluateInjection 100 State.initial answeredDocument).document).state.button = some 100 ∧
      (evaluateInjection 101 (evaluateInjection 100 State.initial answeredDocument).state
        (evaluateInjection 100 State.initial answeredDocument).document).document =
        (evaluateInjection 100 State.initial answeredDocument).document ∧
      (evaluateInjection 101 (evaluateInjection 100 State.initial answeredDocument).state
        (evaluateInjection 100 State.initial answeredDocument).document).state =
        (evaluateInjection 100 State.initial answeredDocument).state ∧
      (evaluateInjection 101 (evaluateInjection 100 State.initial answeredDocument).state
        (evaluateInjection 100 State.initial answeredDocument).document).created = none) :=
  ⟨by decide, by decide,
    ((trigger_kept_iff_same_signature 101
      (evaluateInjection 100 State.initial answeredDocument).state
      (evaluateInjection 100 State.initial answeredDocument).document 100
      (by decide) (by decide) (by decide)).1).2 (by decide)⟩

/-! ## The scheduler -/

theorem notifyAt_initial (t : Nat) : Debounced t (notifyAt (State.initial, EventLoop.initial) t) := by
  refine ⟨1, ?_, rfl, ?_, ?_⟩
  · simp [notifyAt, scheduleEvaluation, EventLoop.advanceTo, EventLoop.clearTimeout,
      EventLoop.setTimeout, State.initial, EventLoop.initial]
  · simp [notifyAt, scheduleEvaluation, EventLoop.advanceTo, EventLoop.clearTimeout,
      EventLoop.setTimeout, State.initial, EventLoop.initial]
  · simp [notifyAt, scheduleEvaluation, EventLoop.advanceTo, EventLoop.clearTimeout,
      EventLoop.setTimeout, State.initial, EventLoop.initial]

theorem notifyAt_debounced {t u : Nat} {s : State × EventLoop} (hs : Debounced t s)
    (h1 : t ≤ u) (h2 : u < t + 250) : Debounced u (notifyAt s u) := by
  obtain ⟨k, ht, he, hp, hn⟩ := hs
  have hdue : ¬ (t + 250 ≤ u) := by omega
  refine ⟨s.2.nextId, ?_, ?_, ?_, ?_⟩
  · simp [notifyAt, scheduleEvaluation, EventLoop.advanceTo, EventLoop.clearTimeout,
      EventLoop.setTimeout, ht, he, hn, hdue, h1]
  · simp [notifyAt, scheduleEvaluation, EventLoop.advanceTo, EventLoop.clearTimeout,
      EventLoop.setTimeout, he]
  · simp [notifyAt, scheduleEvaluation, EventLoop.advanceTo, EventLoop.clearTimeout,
      EventLoop.setTimeout, ht, he, hp, hdue]
  · simp [notifyAt, scheduleEvaluation, EventLoop.advanceTo, EventLoop.clearTimeout,
      EventLoop.setTimeout, ht, he, hn, hdue, h1]

theorem foldl_notifyAt_debounced (ts : List Nat) (t last : Nat) (s : State × EventLoop)
    (hs : Debounced t s) (hw : withinWindow (t :: ts)) (hl : (t :: ts).getLast? = some last) :
    Debounced last (ts.foldl notifyAt s) := by
  induction ts generalizing t s with
  | nil =>
    simp only [List.getLast?_singleton, Option.some.injEq] at hl
    subst hl
    exact hs
  | cons u rest ih =>
    obtain ⟨h1, h2, h3⟩ := hw
    rw [List.getLast?_cons_cons] at hl
    exact ih u (notifyAt s u) (notifyAt_debounced hs h1 h2) h3 hl

theorem drain_debounced {t : Nat} {s : State × EventLoop} (hs : Debounced t s) :
    s.2.drain.passes = [t + 250] := by
  obtain ⟨k, ht, he, hp, hn⟩ := hs
  simp [EventLoop.drain, EventLoop.advanceTo, ht, hp, hn]

/-- C10: in the scheduler with an explicit clock and timer, for every
non-empty sequence of change notifications in which each one arrives less
than 250 ms after the one before, exactly one evaluation pass is run, and it
runs 250 ms after the last notification. -/
theorem debounce_single_pass (ts : List Nat) (last : Nat) (hl : ts.getLast? = some last)
    (hw : withinWindow ts) : passesAfter ts = [last + 250] := by
  cases ts with
  | nil => simp at hl
  | cons t rest =>
    unfold passesAfter
    rw [List.foldl_cons]
    exact drain_debounced (foldl_notifyAt_debounced rest t last _ (notifyAt_initial t) hw hl)

theorem debounce_single_pass_witness :
    rapidFire.length = 50 ∧ (∀ t ∈ rapidFire, t < 100) ∧ withinWindow rapidFire ∧
    passesAfter rapidFire = [348] :=
  ⟨by decide, by decide, by decide, debounce_single_pass rapidFire 98 (by decide) (by decide)⟩

/-! ## The heuristic scanner -/

theorem heuristicCandidates_cons (toLower : JsString → JsString) (d : Document) (kw : List JsString)
    (minChars maxChars : Nat)
    (el : Element) (rest : List Element) :
    heuristicCandidates toLower d kw minChars maxChars (el :: rest) =
      if isCandidate toLower d kw minChars maxChars el then
        (el, scoreCandidate d el (extractText (some el))) ::
          heuristicCandidates toLower d kw minChars maxChars rest
      else heuristicCandidates toLower d kw minChars maxChars rest := by
  simp only [heuristicCandidates, isCandidate]
  by_cases h1 : isVisible d (some el) = true
  · by_cases h2 : (extractText (some el)).isEmpty = true
    · simp [h1, h2]
    · by_cases h3 : (extractText (some el)).length < minChars ∨
          (extractText (some el)).length > maxChars
      · simp [h1, h2, h3]
      · by_cases h4 : (!kw.isEmpty &&
            !(kw.any fun k => includes (toLower (extractText (some el))) k)) = true
        · simp only [h1, h2, h3, h4]
          simp
        · simp only [h1, h2, h3, h4]
          simp
  · simp [h1]

theorem isCandidate_iff (toLower : JsString → JsString) (d : Document)
    (keywords : List JsString) (minChars maxChars : Nat)
    (el : Element) :
    isCandidate toLower d (keywords.map toLower) minChars maxChars el = true ↔
      Spec.qualifies toLower d keywords minChars maxChars el := by
  simp only [isCandidate, Spec.qualifies, Bool.and_eq_true, Bool.not_eq_true', decide_eq_false_iff_not,
    not_or, not_lt, gt_iff_lt, Bool.and_eq_false_iff, Bool.not_eq_false, isEmpty_eq_false_iff,
    List.any_eq_true, List.mem_map, List.isEmpty_iff, List.map_eq_nil_iff, Bool.not_eq_false']
  constructor
  · rintro ⟨⟨⟨h1, h2⟩, h3, h4⟩, h5⟩
    refine ⟨h1, h2, h3, h4, ?_⟩
    rcases h5 with h5 | ⟨k, ⟨k0, hk0, rfl⟩, hk⟩
    · exact Or.inl h5
    · exact Or.inr ⟨k0, hk0, hk⟩
  · rintro ⟨h1, h2, h3, h4, h5⟩
    refine ⟨⟨⟨h1, h2⟩, h3, h4⟩, ?_⟩
    rcases h5 with h5 | ⟨k, hk0, hk⟩
    · exact Or.inl h5
    · exact Or.inr ⟨_, ⟨k, hk0, rfl⟩, hk⟩

theorem structuralContainers_matches (d : Document) (e : Element) :
    matchesSelector d structuralContainers e = Spec.isStructuralContainer e := by
  simp [matchesSelector, structuralContainers, matchesComplex, matchChain, matchesCompound,
    selTag, Spec.isStructuralContainer, Bool.or_assoc]

theorem querySelectorAllIn_structuralContainers (d : Document) (root : Nat) :
    querySelectorAllIn d root structuralContainers = Spec.scanned d (some root) := by
  simp only [querySelectorAllIn, Spec.scanned, structuralContainers_matches]

theorem heuristicCandidates_eq (toLower : JsString → JsString) (d : Document) (kw : List JsString)
    (minChars maxChars : Nat) (l : List Element) :
    heuristicCandidates toLower d kw minChars maxChars l =
      (l.filter (isCandidate toLower d kw minChars maxChars)).map
        fun e => (e, scoreCandidate d e (extractText (some e))) := by
  induction l with
  | nil => rfl
  | cons el rest ih =>
    rw [heuristicCandidates_cons, ih]
    by_cases hc : isCandidate toLower d kw minChars maxChars el = true
    · rw [if_pos hc, List.filter_cons_of_pos hc, List.map_cons]
    · rw [if_neg hc, List.filter_cons_of_neg hc]

/-- What the head of a stable descending sort of the scored members of `l`
is: nothing when no element of `l` passes `p`; otherwise an element that
passes, with its score, before which every passing element scores less and
after which none scores more. -/
theorem sorted_head_spec {β : Type} (p : Element → Bool) (f : Element → β) (g : β → ℚ)
    (l : List Element) :
    match (((l.filter p).map fun e => (e, f e)).insertionSort fun a b => g b.2 ≤ g a.2).head? with
    | none => ∀ e ∈ l, p e = false
    | some c =>
      c.2 = f c.1 ∧ p c.1 = true ∧
      ∃ pre post, l = pre ++ c.1 :: post ∧
        (∀ e ∈ pre, p e = true → g (f e) < g c.2) ∧
        (∀ e ∈ post, p e = true → g (f e) ≤ g c.2) := by
  induction l with
  | nil => simp
  | cons el rest ih =>
    by_cases hc : p el = true
    · rw [List.filter_cons_of_pos hc, List.map_cons, List.insertionSort]
      cases hs : ((rest.filter p).map fun e => (e, f e)).insertionSort
          (fun a b => g b.2 ≤ g a.2) with
      | nil =>
        rw [hs] at ih
        simp only [List.head?_nil] at ih
        simp only [List.orderedInsert, List.head?_cons]
        exact ⟨trivial, hc, [], rest, rfl, by simp, fun e he h => by rw [ih e he] at h; cases h⟩
      | cons h t =>
        rw [hs] at ih
        simp only [List.head?_cons] at ih
        obtain ⟨h1, h2, pre, post, h3, h4, h5⟩ := ih
        simp only [List.orderedInsert]
        by_cases hle : g h.2 ≤ g (f el)
        · rw [if_pos hle]
          simp only [List.head?_cons]
          refine ⟨trivial, hc, [], rest, rfl, by simp, ?_⟩
          intro e he hce
          rw [h3] at he
          rcases List.mem_append.1 he with he | he
          · exact le_trans (le_of_lt (h4 e he hce)) hle
          · rcases List.mem_cons.1 he with rfl | he
            · rw [← h1]; exact hle
            · exact le_trans (h5 e he hce) hle
        · rw [if_neg hle]
          simp only [List.head?_cons]
          refine ⟨h1, h2, el :: pre, post, by rw [h3]; rfl, ?_, h5⟩
          intro e he hce
          rcases List.mem_cons.1 he with rfl | he
          · exact lt_of_not_le hle
          · exact h4 e he hce
    · rw [List.filter_cons_of_neg hc]
      cases hs : (((rest.filter p).map fun e => (e, f e)).insertionSort
          fun a b => g b.2 ≤ g a.2).head? with
      | none =>
        rw [hs] at ih
        simp only [] at ih ⊢
        intro e he
        rcases List.mem_cons.1 he with rfl | he
        · simpa using hc
        · exact ih e he
      | some c =>
        rw [hs] at ih
        simp only [] at ih ⊢
        obtain ⟨h1, h2, pre, post, h3, h4, h5⟩ := ih
        refine ⟨h1, h2, el :: pre, post, by rw [h3]; rfl, ?_, h5⟩
        intro e he hce
        rcases List.mem_cons.1 he with rfl | he
        · exact absurd hce hc
        · exact h4 e he hce

/-- C11: for the lower-casing of the platform, whatever it is,
`heuristicFindPanel` returns null exactly when no structural container
descendant of the root qualifies (visible, normalized text non-empty with
length in `[minChars, maxChars]`, keyword list empty or some keyword a
case-insensitive substring of the text).  Otherwise it returns a qualifying
node of the scan whose score is maximal among the qualifying nodes and which
is the first such node in traversal order: every qualifying node before it
scores strictly less.  So the text of the returned node is never shorter than
`minChars` nor longer than `maxChars`. -/
theorem heuristicFindPanel_spec (toLower : JsString → JsString) (d : Document)
    (keywords : List JsString) (minChars maxChars : Nat) (root : Option Nat) :
    (heuristicFindPanel toLower d keywords minChars maxChars root = none ↔
      ∀ e ∈ Spec.scanned d root, ¬ Spec.qualifies toLower d keywords minChars maxChars e) ∧
    (∀ w, heuristicFindPanel toLower d keywords minChars maxChars root = some w →
      Spec.qualifies toLower d keywords minChars maxChars w ∧
      (∀ e ∈ Spec.scanned d root, Spec.qualifies toLower d keywords minChars maxChars e →
        Spec.score d e ≤ Spec.score d w) ∧
      (∃ pre post, Spec.scanned d root = pre ++ w :: post ∧
        ∀ e ∈ pre, Spec.qualifies toLower d keywords minChars maxChars e →
          Spec.score d e < Spec.score d w) ∧
      minChars ≤ (extractText (some w)).length ∧ (extractText (some w)).length ≤ maxChars) := by
  cases root with
  | none =>
    simp [heuristicFindPanel, Spec.scanned]
  | some r =>
    have key := sorted_head_spec (isCandidate toLower d (keywords.map toLower) minChars maxChars)
      (fun e => scoreCandidate d e (extractText (some e))) Float64.toRat
      (Spec.scanned d (some r))
    have hfind : heuristicFindPanel toLower d keywords minChars maxChars (some r) =
        ((((Spec.scanned d (some r)).filter
            (isCandidate toLower d (keywords.map toLower) minChars maxChars)).map
          fun e => (e, scoreCandidate d e (extractText (some e)))).insertionSort
            fun a b => b.2.toRat ≤ a.2.toRat).head?.map Prod.fst := by
      simp only [heuristicFindPanel, querySelectorAllIn_structuralContainers,
        heuristicCandidates_eq]
    rw [hfind]
    simp only [Spec.score]
    cases hs : ((((Spec.scanned d (some r)).filter
        (isCandidate toLower d (keywords.map toLower) minChars maxChars)).map
          fun e => (e, scoreCandidate d e (extractText (some e)))).insertionSort
            fun a b => b.2.toRat ≤ a.2.toRat).head? with
    | none =>
      rw [hs] at key
      simp only [] at key
      refine ⟨⟨fun _ e he hq => ?_, fun _ => rfl⟩, fun w hw => by cases hw⟩
      have := key e he
      rw [(isCandidate_iff toLower d keywords minChars maxChars e).2 hq] at this
      cases this
    | some c =>
      rw [hs] at key
      simp only [] at key
      obtain ⟨h1, h2, pre, post, h3, h4, h5⟩ := key
      have hqc := (isCandidate_iff toLower d keywords minChars maxChars c.1).1 h2
      constructor
      · constructor
        · intro h; cases h
        · intro h
          exact absurd hqc (h c.1 (by rw [h3]; simp))
      · intro w hw
        simp only [Option.map_some', Option.some.injEq] at hw
        subst hw
        refine ⟨hqc, ?_, ⟨pre, post, h3, ?_⟩, hqc.2.2.1, hqc.2.2.2.1⟩
        · intro e he hq
          have hce := (isCandidate_iff toLower d keywords minChars maxChars e).2 hq
          rw [h3] at he
          rw [← h1]
          rcases List.mem_append.1 he with he | he
          · exact le_of_lt (h4 e he hce)
          · rcases List.mem_cons.1 he with rfl | he
            · rw [h1]
            · exact h5 e he hce
        · intro e he hq
          rw [← h1]
          exact h4 e he ((isCandidate_iff toLower d keywords minChars maxChars e).2 hq)

theorem heuristicFindPanel_spec_witness :
    heuristicFindPanel toLowerCase panelDocument [js "question"] 30 20000 (some 1) =
      some (shown 2 (some 1) "div" [] (js "Question 1: which of these drugs is first line?")) ∧
    Spec.qualifies toLowerCase panelDocument [js "question"] 30 20000
      (shown 2 (some 1) "div" [] (js "Question 1: which of these drugs is first line?")) :=
  ⟨by decide,
    ((heuristicFindPanel_spec toLowerCase panelDocument [js "question"] 30 20000 (some 1)).2
      (shown 2 (some 1) "div" [] (js "Question 1: which of these drugs is first line?"))
      (by decide)).1⟩

/-! ## Rounding to the nearest double -/

theorem log2Fuel_spec (fuel n : Nat) (hf : n ≤ fuel) (hn : 0 < n) :
    2 ^ log2Fuel fuel n ≤ n ∧ n < 2 ^ (log2Fuel fuel n + 1) := by
  induction fuel generalizing n with
  | zero => omega
  | succ fuel ih =>
    unfold log2Fuel
    by_cases h2 : n < 2
    · rw [if_pos h2]
      have : n = 1 := by omega
      subst this
      simp
    · rw [if_neg h2]
      have hdiv : 0 < n / 2 := Nat.div_pos (by omega) (by omega)
      have hle : n / 2 ≤ fuel := by omega
      obtain ⟨h3, h4⟩ := ih (n / 2) hle hdiv
      constructor
      · rw [pow_succ]
        omega
      · rw [pow_succ]
        omega

theorem log2Floor_spec (n : Nat) (hn : 0 < n) :
    2 ^ log2Floor n ≤ n ∧ n < 2 ^ (log2Floor n + 1) :=
  log2Fuel_spec n n (le_refl n) hn

theorem exponentOf_le (a d : Nat) :
    exponentOf a d ≤ (log2Floor a : Int) - (log2Floor d : Int) := by
  unfold exponentOf
  simp only []
  split <;> omega

theorem roundQuotient_error (N D : Nat) (hD : 0 < D) :
    |((roundQuotient N D : Nat) : ℚ) - (N : ℚ) / D| ≤ 1 / 2 := by
  have hDq : (0 : ℚ) < D := by exact_mod_cast hD
  have hN : (N : ℚ) = (D : ℚ) * ((N / D : Nat) : ℚ) + ((N % D : Nat) : ℚ) := by
    exact_mod_cast (Nat.div_add_mod N D).symm
  have hr : N % D < D := Nat.mod_lt N hD
  have hrq : ((N % D : Nat) : ℚ) < D := by exact_mod_cast hr
  have hr0 : (0 : ℚ) ≤ ((N % D : Nat) : ℚ) := Nat.cast_nonneg _
  have hquot : (N : ℚ) / D = ((N / D : Nat) : ℚ) + ((N % D : Nat) : ℚ) / D := by
    rw [hN]
    field_simp
    ring
  rw [abs_le]
  unfold roundQuotient
  simp only []
  by_cases h1 : 2 * (N % D) < D
  · rw [if_pos h1, hquot]
    have h1q : 2 * ((N % D : Nat) : ℚ) < D := by exact_mod_cast h1
    have : ((N % D : Nat) : ℚ) / D < 1 / 2 := by
      rw [div_lt_iff₀ hDq]; linarith
    have h0 : (0 : ℚ) ≤ ((N % D : Nat) : ℚ) / D := div_nonneg hr0 (le_of_lt hDq)
    constructor <;> linarith
  · rw [if_neg h1]
    have key : ∀ x : ℚ, x = ((N / D : Nat) : ℚ) + 1 → D ≤ 2 * (N % D) →
        -(1 / 2) ≤ x - (N : ℚ) / D ∧ x - (N : ℚ) / D ≤ 1 / 2 := by
      intro x hx hge
      have hgeq : (D : ℚ) ≤ 2 * ((N % D : Nat) : ℚ) := by exact_mod_cast hge
      have h2 : (1 : ℚ) / 2 ≤ ((N % D : Nat) : ℚ) / D := by
        rw [le_div_iff₀ hDq]; linarith
      have h3 : ((N % D : Nat) : ℚ) / D < 1 := by
        rw [div_lt_iff₀ hDq]; linarith
      rw [hx, hquot]
      constructor <;> linarith
    have keep : ∀ x : ℚ, x = ((N / D : Nat) : ℚ) → 2 * (N % D) = D →
        -(1 / 2) ≤ x - (N : ℚ) / D ∧ x - (N : ℚ) / D ≤ 1 / 2 := by
      intro x hx heq
      have heqq : 2 * ((N % D : Nat) : ℚ) = D := by exact_mod_cast heq
      have h2 : ((N % D : Nat) : ℚ) / D = 1 / 2 := by
        rw [div_eq_iff (ne_of_gt hDq)]; linarith
      rw [hx, hquot, h2]
      constructor <;> linarith
    by_cases h2 : D < 2 * (N % D)
    · rw [if_pos h2]
      exact key _ (by push_cast; ring) (by omega)
    · rw [if_neg h2]
      by_cases h3 : N / D % 2 = 0
      · rw [if_pos h3]
        exact keep _ rfl (by omega)
      · rw [if_neg h3]
        exact key _ (by push_cast; ring) (by omega)

theorem roundNearest_exp_le (a d B : Nat) (ha : 0 < a) (hd : 0 < d) (hB : a < d * 2 ^ B) :
    max (exponentOf a d) (-1022) - 52 ≤ (B : Int) - 52 := by
  have h1 := (log2Floor_spec a ha).1
  have h2 := (log2Floor_spec d hd).2
  have h3 : 2 ^ log2Floor a < 2 ^ (log2Floor d + 1 + B) := by
    calc 2 ^ log2Floor a ≤ a := h1
      _ < d * 2 ^ B := hB
      _ < 2 ^ (log2Floor d + 1) * 2 ^ B := Nat.mul_lt_mul_of_pos_right h2 (by positivity)
      _ = 2 ^ (log2Floor d + 1 + B) := (pow_add 2 (log2Floor d + 1) B).symm
  have h4 : log2Floor a < log2Floor d + 1 + B := (Nat.pow_lt_pow_iff_right (by norm_num)).1 h3
  have h5 := exponentOf_le a d
  have h6 : max (exponentOf a d) (-1022) ≤ (B : Int) := by
    apply max_le <;> omega
  omega

theorem mantissa_error (a d : Nat) (u : Int) (hd : 0 < d) :
    |(((if 0 ≤ u then roundQuotient a (d * 2 ^ u.toNat)
        else roundQuotient (a * 2 ^ (-u).toNat) d : Nat) : ℚ)) -
      (a : ℚ) / d * (2 : ℚ) ^ (-u)| ≤ 1 / 2 := by
  have hdq : (d : ℚ) ≠ 0 := by exact_mod_cast hd.ne'
  by_cases hu : 0 ≤ u
  · rw [if_pos hu]
    have h := roundQuotient_error a (d * 2 ^ u.toNat) (by positivity)
    have e : ((a : ℚ)) / ((d * 2 ^ u.toNat : Nat) : ℚ) = (a : ℚ) / d * (2 : ℚ) ^ (-u) := by
      have hz : ((2 : ℚ) ^ u.toNat) = (2 : ℚ) ^ u := by
        rw [← zpow_natCast, Int.toNat_of_nonneg hu]
      push_cast
      rw [hz, zpow_neg]
      field_simp
    rw [e] at h
    exact h
  · rw [if_neg hu]
    have hu' : 0 ≤ -u := by omega
    have h := roundQuotient_error (a * 2 ^ (-u).toNat) d hd
    have e : (((a * 2 ^ (-u).toNat : Nat) : ℚ)) / (d : ℚ) = (a : ℚ) / d * (2 : ℚ) ^ (-u) := by
      have hz : ((2 : ℚ) ^ (-u).toNat) = (2 : ℚ) ^ (-u) := by
        rw [← zpow_natCast, Int.toNat_of_nonneg hu']
      push_cast
      rw [hz, mul_div_right_comm]
    rw [e] at h
    exact h

/-- The error of rounding: when `|n / d| < 2 ^ B`, the double nearest to
`n / d` is within `2 ^ (B - 53)` of it. -/
theorem roundNearest_error (n : Int) (d B : Nat) (hd : 0 < d) (hB : n.natAbs < d * 2 ^ B) :
    |(roundNearest n d).toRat - (n : ℚ) / d| ≤ (2 : ℚ) ^ ((B : Int) - 53) := by
  by_cases ha : n.natAbs = 0
  · have hn : n = 0 := Int.natAbs_eq_zero.1 ha
    subst hn
    simp only [roundNearest, Int.natAbs_zero, true_or, if_true, Float64.toRat]
    simp only [Int.cast_zero, zero_mul, zero_div, sub_zero, abs_zero]
    positivity
  · have hapos : 0 < n.natAbs := Nat.pos_of_ne_zero ha
    have hu := roundNearest_exp_le n.natAbs d B hapos hd hB
    have hm := mantissa_error n.natAbs d (max (exponentOf n.natAbs d) (-1022) - 52) hd
    simp only [roundNearest, ha, hd.ne', or_self, if_false, Float64.toRat]
    generalize max (exponentOf n.natAbs d) (-1022) - 52 = u at hu hm
    generalize ((if 0 ≤ u then roundQuotient n.natAbs (d * 2 ^ u.toNat)
        else roundQuotient (n.natAbs * 2 ^ (-u).toNat) d : Nat)) = m1 at hm
    have h2pos : (0 : ℚ) < (2 : ℚ) ^ u := zpow_pos (by norm_num) u
    have hinv : (2 : ℚ) ^ (-u) * (2 : ℚ) ^ u = 1 := by
      rw [← zpow_add₀ (by norm_num : (2 : ℚ) ≠ 0)]
      simp
    have hbound : (2 : ℚ) ^ u * (1 / 2) ≤ (2 : ℚ) ^ ((B : Int) - 53) := by
      have : (2 : ℚ) ^ u * (1 / 2) = (2 : ℚ) ^ (u - 1) := by
        rw [zpow_sub₀ (by norm_num : (2 : ℚ) ≠ 0)]
        simp [div_eq_mul_inv]
      rw [this]
      exact zpow_le_zpow_right₀ (by norm_num) (by omega)
    have hcore : |(m1 : ℚ) * (2 : ℚ) ^ u - (n.natAbs : ℚ) / d| ≤ (2 : ℚ) ^ ((B : Int) - 53) := by
      have e : (m1 : ℚ) * (2 : ℚ) ^ u - (n.natAbs : ℚ) / d =
          (2 : ℚ) ^ u * ((m1 : ℚ) - (n.natAbs : ℚ) / d * (2 : ℚ) ^ (-u)) := by
        have e1 : (2 : ℚ) ^ u * ((m1 : ℚ) - (n.natAbs : ℚ) / d * (2 : ℚ) ^ (-u)) =
            (m1 : ℚ) * (2 : ℚ) ^ u - (n.natAbs : ℚ) / d * ((2 : ℚ) ^ (-u) * (2 : ℚ) ^ u) := by
          ring
        rw [e1, hinv, mul_one]
      rw [e, abs_mul, abs_of_pos h2pos]
      calc (2 : ℚ) ^ u * |(m1 : ℚ) - (n.natAbs : ℚ) / d * (2 : ℚ) ^ (-u)|
          ≤ (2 : ℚ) ^ u * (1 / 2) := mul_le_mul_of_nonneg_left hm (le_of_lt h2pos)
        _ ≤ (2 : ℚ) ^ ((B : Int) - 53) := hbound
    by_cases hneg : n < 0
    · rw [if_pos hneg]
      have hcast : (n : ℚ) = -(n.natAbs : ℚ) := by
        have hq : (n : ℚ) < 0 := by exact_mod_cast hneg
        rw [Nat.cast_natAbs, Int.cast_abs, abs_of_neg hq, neg_neg]
      rw [hcast]
      have e : ((-(m1 : Int) : Int) : ℚ) * (2 : ℚ) ^ u - -(n.natAbs : ℚ) / d =
          -((m1 : ℚ) * (2 : ℚ) ^ u - (n.natAbs : ℚ) / d) := by
        push_cast
        ring
      rw [e, abs_neg]
      exact hcore
    · rw [if_neg hneg]
      have hcast : (n : ℚ) = (n.natAbs : ℚ) := by
        have hq : (0 : ℚ) ≤ (n : ℚ) := by exact_mod_cast (not_lt.1 hneg)
        rw [Nat.cast_natAbs, Int.cast_abs, abs_of_nonneg hq]
      rw [hcast]
      push_cast
      exact hcore

theorem Float64.sub_value (x y : Float64) :
    ∃ (n : Int) (dd : Nat), 0 < dd ∧ Float64.sub x y = roundNearest n dd ∧
      (n : ℚ) / dd = x.toRat - y.toRat := by
  have h2 : (2 : ℚ) ≠ 0 := by norm_num
  have hx : 0 ≤ x.exp - min x.exp y.exp := by omega
  have hy : 0 ≤ y.exp - min x.exp y.exp := by omega
  have hzx : ((2 : ℚ) ^ (x.exp - min x.exp y.exp).toNat) * (2 : ℚ) ^ (min x.exp y.exp) =
      (2 : ℚ) ^ x.exp := by
    rw [← zpow_natCast, Int.toNat_of_nonneg hx, ← zpow_add₀ h2]
    congr 1
    omega
  have hzy : ((2 : ℚ) ^ (y.exp - min x.exp y.exp).toNat) * (2 : ℚ) ^ (min x.exp y.exp) =
      (2 : ℚ) ^ y.exp := by
    rw [← zpow_natCast, Int.toNat_of_nonneg hy, ← zpow_add₀ h2]
    congr 1
    omega
  have hval : ((x.mant * 2 ^ (x.exp - min x.exp y.exp).toNat -
      y.mant * 2 ^ (y.exp - min x.exp y.exp).toNat : Int) : ℚ) * (2 : ℚ) ^ (min x.exp y.exp) =
      x.toRat - y.toRat := by
    simp only [Float64.toRat]
    push_cast
    rw [sub_mul, mul_assoc, mul_assoc, hzx, hzy]
  unfold Float64.sub
  simp only []
  by_cases he : 0 ≤ min x.exp y.exp
  · rw [if_pos he]
    refine ⟨_, 1, Nat.one_pos, rfl, ?_⟩
    have hp : (((2 : Int) ^ (min x.exp y.exp).toNat : Int) : ℚ) = (2 : ℚ) ^ (min x.exp y.exp) := by
      rw [Int.cast_pow, ← zpow_natCast, Int.toNat_of_nonneg he]
      norm_num
    rw [← hval, Int.cast_mul, hp, Nat.cast_one, div_one]
  · rw [if_neg he]
    have hne : 0 ≤ -(min x.exp y.exp) := by omega
    refine ⟨_, 2 ^ (-(min x.exp y.exp)).toNat, by positivity, rfl, ?_⟩
    have hp : (((2 : Nat) ^ (-(min x.exp y.exp)).toNat : Nat) : ℚ) =
        (2 : ℚ) ^ (-(min x.exp y.exp)) := by
      rw [Nat.cast_pow, ← zpow_natCast, Int.toNat_of_nonneg hne]
      norm_num
    rw [← hval, hp, zpow_neg, div_inv_eq_mul]

theorem natAbs_lt_of_abs_div_lt (n : Int) (dd B : Nat) (hd : 0 < dd)
    (h : |(n : ℚ) / dd| < (2 : ℚ) ^ B) : n.natAbs < dd * 2 ^ B := by
  have hdq : (0 : ℚ) < dd := by exact_mod_cast hd
  rw [abs_div, abs_of_pos hdq, div_lt_iff₀ hdq] at h
  have h1 : ((n.natAbs : Nat) : ℚ) < ((dd * 2 ^ B : Nat) : ℚ) := by
    rw [Nat.cast_natAbs, Int.cast_abs]
    push_cast
    linarith
  exact_mod_cast h1

/-- The error of a subtraction of doubles whose exact difference is below
`2 ^ B` in absolute value. -/
theorem Float64.sub_error (x y : Float64) (B : Nat) (h : |x.toRat - y.toRat| < (2 : ℚ) ^ B) :
    |(Float64.sub x y).toRat - (x.toRat - y.toRat)| ≤ (2 : ℚ) ^ ((B : Int) - 53) := by
  obtain ⟨n, dd, hd, hs, hv⟩ := Float64.sub_value x y
  rw [hs, ← hv]
  exact roundNearest_error n dd B hd (natAbs_lt_of_abs_div_lt n dd B hd (by rw [hv]; exact h))

theorem Float64.div_ofNat (k m : Nat) :
    Float64.div (Float64.ofNat k) (Float64.ofNat m) = roundNearest k m := by
  have hm : ¬ ((m : Int) < 0) := by omega
  simp [Float64.div, Float64.ofNat, hm]

theorem Float64.toRat_ofNat (n : Nat) : (Float64.ofNat n).toRat = n := by
  simp [Float64.ofNat, Float64.toRat]

/-! ## The depth counter and the score -/

theorem getDomDepthLoop_eq (d : Document) (fuel depth : Nat) (cur : Element)
    (h : depth + fuel = 81) :
    getDomDepthLoop d fuel depth cur = depth + (ancestorsFuel d fuel cur).length := by
  induction fuel generalizing depth cur with
  | zero => simp [getDomDepthLoop, ancestorsFuel]
  | succ f ih =>
    unfold getDomDepthLoop ancestorsFuel
    cases parentElement d cur with
    | none => simp
    | some p =>
      simp only []
      by_cases hc : depth + 1 > 80
      · have hf : f = 0 := by omega
        subst hf
        simp [hc, ancestorsFuel]
      · rw [if_neg hc, ih (depth + 1) p (by omega), List.length_cons]
        omega

theorem getDomDepth_eq (d : Document) (el : Element) :
    getDomDepth d el = (ancestorsFuel d 81 el).length := by
  rw [getDomDepth, getDomDepthLoop_eq d 81 0 el (by omega)]
  omega

theorem ancestorsFuel_take (d : Document) (k m : Nat) (e : Element) (h : k ≤ m) :
    ancestorsFuel d k e = (ancestorsFuel d m e).take k := by
  induction k generalizing m e with
  | zero => simp [ancestorsFuel]
  | succ k ih =>
    cases m with
    | zero => omega
    | succ m =>
      unfold ancestorsFuel
      cases parentElement d e with
      | none => simp
      | some p =>
        simp only [List.take_succ_cons]
        rw [ih m p (by omega)]

theorem ancestorsFuel_ended (d : Document) (n m : Nat) (e : Element)
    (hlen : (ancestorsFuel d n e).length < n) (h : n ≤ m) :
    ancestorsFuel d m e = ancestorsFuel d n e := by
  induction n generalizing m e with
  | zero => omega
  | succ n ih =>
    cases m with
    | zero => omega
    | succ m =>
      unfold ancestorsFuel at hlen ⊢
      cases hp : parentElement d e with
      | none => rfl
      | some p =>
        rw [hp] at hlen
        simp only [List.length_cons] at hlen
        simp only []
        rw [ih m p (by omega) (by omega)]

theorem getDomDepth_eq_min (d : Document) (el : Element)
    (hchain : Spec.domDepth d el < d.nodes.length) :
    getDomDepth d el = min (Spec.domDepth d el) 81 := by
  rw [getDomDepth_eq]
  unfold Spec.domDepth ancestors at *
  by_cases h : 81 ≤ d.nodes.length
  · rw [ancestorsFuel_take d 81 d.nodes.length el h, List.length_take, Nat.min_comm]
  · rw [ancestorsFuel_ended d d.nodes.length 81 el hchain (by omega)]
    omega

theorem ancestorsFuel_length_le (d : Document) (fuel : Nat) (e : Element) :
    (ancestorsFuel d fuel e).length ≤ fuel := by
  induction fuel generalizing e with
  | zero => simp [ancestorsFuel]
  | succ f ih =>
    unfold ancestorsFuel
    cases parentElement d e with
    | none => simp
    | some p =>
      simp only [List.length_cons]
      exact Nat.succ_le_succ (ih p)

theorem getDomDepth_le (d : Document) (el : Element) : getDomDepth d el ≤ 81 := by
  rw [getDomDepth_eq]
  exact ancestorsFuel_length_le d 81 el

/-- The double score for depth `depth` and length distance `k`, against the
rational formula. -/
theorem score_error (depth k : Nat) (hd : depth ≤ 81) (hk : k ≤ 1200) :
    |(Float64.sub (Float64.ofNat (depth * 2))
        (Float64.div (Float64.ofNat k) (Float64.ofNat 800))).toRat -
      (2 * (depth : ℚ) - (k : ℚ) / 800)| ≤ (2 : ℚ) ^ (-44 : Int) := by
  rw [Float64.div_ofNat]
  have hq := roundNearest_error (k : Int) 800 1 (by norm_num) (by simp; omega)
  rw [abs_le] at hq
  have hdq : (depth : ℚ) ≤ 81 := by exact_mod_cast hd
  have hd0 : (0 : ℚ) ≤ depth := Nat.cast_nonneg _
  have hkq : (k : ℚ) ≤ 1200 := by exact_mod_cast hk
  have hk0 : (0 : ℚ) ≤ k := Nat.cast_nonneg _
  have e52 : (2 : ℚ) ^ ((1 : Nat) - 53 : Int) = 1 / 4503599627370496 := by
    norm_num [zpow_neg]
  have e45 : (2 : ℚ) ^ ((8 : Nat) - 53 : Int) = 1 / 35184372088832 := by
    norm_num [zpow_neg]
  have e44 : (2 : ℚ) ^ (-44 : Int) = 1 / 17592186044416 := by
    norm_num [zpow_neg]
  rw [e52] at hq
  simp only [Int.cast_natCast, Nat.cast_ofNat] at hq
  have hs := Float64.sub_error (Float64.ofNat (depth * 2)) (roundNearest (k : Int) 800) 8 (by
    rw [Float64.toRat_ofNat, abs_lt]
    push_cast
    constructor <;> norm_num <;> linarith [hq.1, hq.2])
  rw [e45, Float64.toRat_ofNat, abs_le] at hs
  push_cast at hs
  rw [e44, abs_le]
  constructor <;> linarith [hq.1, hq.2, hs.1, hs.2]

theorem natAbs_length_distance (len : Nat) :
    (((800 : Int) - (min len 2000 : Nat)).natAbs : ℚ) = |800 - ((min len 2000 : Nat) : ℚ)| ∧
    ((800 : Int) - (min len 2000 : Nat)).natAbs ≤ 1200 := by
  constructor
  · rw [Nat.cast_natAbs, Int.cast_abs]
    push_cast
    rfl
  · omega

/-- C12 (as amended): `scoreCandidate` returns the double that IEEE arithmetic
gives for `2*d - |800 - min(len, 2000)| / 800`: the quotient rounded to the
nearest double, then the difference rounded to the nearest double, where `len`
is the length of the text and `d` is the number of ancestor elements of the
node counted up to 81, the value at which `getDomDepth` stops.  That double
lies within `2 ^ -44` of the rational number `2*d - |800 - min(len, 2000)| / 800`.
The ancestor chain of the node ends inside the document, as it does in a
tree. -/
theorem scoreCandidate_eq (d : Document) (el : Element) (text : JsString)
    (hchain : Spec.domDepth d el < d.nodes.length) :
    getDomDepth d el = min (Spec.domDepth d el) 81 ∧
    scoreCandidate d el text =
      Float64.sub (Float64.ofNat (min (Spec.domDepth d el) 81 * 2))
        (roundNearest (((800 : Int) - (min text.length 2000 : Nat)).natAbs) 800) ∧
    |(scoreCandidate d el text).toRat -
        Spec.scoreFormula (min (Spec.domDepth d el) 81) text.length| ≤ (2 : ℚ) ^ (-44 : Int) := by
  have hdepth := getDomDepth_eq_min d el hchain
  have hk := natAbs_length_distance text.length
  refine ⟨hdepth, ?_, ?_⟩
  · unfold scoreCandidate
    simp only []
    rw [hdepth, Float64.div_ofNat]
  · unfold scoreCandidate Spec.scoreFormula
    simp only []
    rw [hdepth, ← hk.1]
    exact score_error _ _ (Nat.min_le_right _ _) hk.2

theorem scoreCandidate_eq_witness :
    Spec.domDepth answeredDocument
        (shown 5 (some 2) "div" [("class", "alert alert-success")] (List.replicate 80 120)) = 3 ∧
    |(scoreCandidate answeredDocument
        (shown 5 (some 2) "div" [("class", "alert alert-success")] (List.replicate 80 120))
        (List.replicate 80 120)).toRat - Spec.scoreFormula (min 3 81) 80| ≤ (2 : ℚ) ^ (-44 : Int) :=
  ⟨by decide,
    (scoreCandidate_eq answeredDocument
      (shown 5 (some 2) "div" [("class", "alert alert-success")] (List.replicate 80 120))
      (List.replicate 80 120) (by decide)).2.2⟩

/-- C12 (as stated) fails twice.  An element with three ancestors and a text
of one character scores the double `5630906909096673 / 2 ^ 50`, which is not
the rational number `2*3 - 799/800 = 4001/800`: the division and the
subtraction round.  The innermost element of a chain of 84 nested elements has
83 ancestors, yet `getDomDepth` gives 81, and its score with a text of one
character is the double `5664727886767063 / 2 ^ 45`, which is below 162 and so
is not `2*83 - 799/800` either. -/
theorem score_differs_from_rational :
    (Spec.domDepth deepDocument thirdLevel = 3 ∧
      (extractText (some thirdLevel)).length = 1 ∧
      scoreCandidate deepDocument thirdLevel (extractText (some thirdLevel)) =
        ⟨5630906909096673, -50⟩ ∧
      (scoreCandidate deepDocument thirdLevel (extractText (some thirdLevel))).toRat ≠
        Spec.scoreFormula (Spec.domDepth deepDocument thirdLevel)
          (extractText (some thirdLevel)).length) ∧
    (Spec.domDepth deepDocument deepest = 83 ∧
      getDomDepth deepDocument deepest = 81 ∧
      (extractText (some deepest)).length = 1 ∧
      scoreCandidate deepDocument deepest (extractText (some deepest)) =
        ⟨5664727886767063, -45⟩ ∧
      (scoreCandidate deepDocument deepest (extractText (some deepest))).toRat < 162 ∧
      (scoreCandidate deepDocument deepest (extractText (some deepest))).toRat ≠
        Spec.scoreFormula (Spec.domDepth deepDocument deepest)
          (extractText (some deepest)).length) := by
  have a1 : Spec.domDepth deepDocument thirdLevel = 3 := by decide
  have a2 : (extractText (some thirdLevel)).length = 1 := by decide
  have a3 : scoreCandidate deepDocument thirdLevel (extractText (some thirdLevel)) =
      ⟨5630906909096673, -50⟩ := by decide
  have b1 : Spec.domDepth deepDocument deepest = 83 := by decide
  have b2 : getDomDepth deepDocument deepest = 81 := by decide
  have b3 : (extractText (some deepest)).length = 1 := by decide
  have b4 : scoreCandidate deepDocument deepest (extractText (some deepest)) =
      ⟨5664727886767063, -45⟩ := by decide
  refine ⟨⟨a1, a2, a3, ?_⟩, b1, b2, b3, b4, ?_, ?_⟩
  · rw [a3, a1, a2]
    norm_num [Float64.toRat, Spec.scoreFormula, zpow_neg]
  · rw [b4]
    norm_num [Float64.toRat, zpow_neg]
  · rw [b4, b1, b3]
    norm_num [Float64.toRat, Spec.scoreFormula, zpow_neg]

/-! ## When the trigger ends in the document -/

theorem mem_refs_remove_iff {d : Document} {b r : Nat} :
    r ∈ (d.remove b).refs ↔ Spec.outsideOf d b r := by
  unfold Spec.outsideOf Document.refs
  rw [List.mem_map]
  constructor
  · rintro ⟨e, he, hr⟩
    obtain ⟨h1, h2, h3⟩ := mem_remove_iff.1 he
    exact ⟨e, h1, hr, h2, h3⟩
  · rintro ⟨e, h1, hr, h2, h3⟩
    exact ⟨e, mem_remove_iff.2 ⟨h1, h2, h3⟩, hr⟩

theorem not_mem_refs_remove {d : Document} {b r : Nat} (h : r ∉ d.refs) :
    r ∉ (d.remove b).refs := by
  intro hr
  obtain ⟨e, he, hre, -, -⟩ := mem_refs_remove_iff.1 hr
  exact h (by rw [← hre]; exact List.mem_map_of_mem (fun e : Element => e.ref) he)

theorem insertBefore_attached_only {d : Document} {p : Nat} {n : Element} {a : Nat}
    (hn : n.ref ∉ d.refs) (h : n.ref ∈ (d.insertBefore p n a).refs) : a ∈ d.refs := by
  rcases insertBeforeNodes_spec p n a d.nodes with ⟨-, h2⟩ | ⟨pre, x, post, h1, h2, -, -⟩
  · exfalso
    apply hn
    simpa [Document.insertBefore, Document.refs, h2] using h
  · rw [Document.refs, h1, ← h2]
    simp

theorem ancestorsFuel_mem (d : Document) (fuel : Nat) (e x : Element)
    (h : x ∈ ancestorsFuel d fuel e) : x ∈ d.nodes := by
  induction fuel generalizing e with
  | zero => simp [ancestorsFuel] at h
  | succ f ih =>
    unfold ancestorsFuel at h
    cases hp : parentElement d e with
    | none => simp [hp] at h
    | some p =>
      simp only [hp, List.mem_cons] at h
      rcases h with h | h
      · subst h
        unfold parentElement at hp
        cases hq : e.parent with
        | none => simp [hq] at hp
        | some q =>
          simp only [hq, Document.byRef] at hp
          exact List.mem_of_find?_eq_some hp
      · exact ih p h

theorem inSubtree_false_of_not_mem {d : Document} {p : Nat} (h : p ∉ d.refs) (e : Element)
    (he : e ∈ d.nodes) : inSubtree d p e = false := by
  unfold inSubtree isDescendantOf
  rw [Bool.or_eq_false_iff]
  constructor
  · rw [beq_eq_false_iff_ne]
    intro hr
    exact h (by rw [← hr]; exact List.mem_map_of_mem (fun e : Element => e.ref) he)
  · rw [List.any_eq_false]
    intro x hx
    rw [Bool.not_eq_true, beq_eq_false_iff_ne]
    intro hr
    exact h (by
      rw [← hr]
      exact List.mem_map_of_mem (fun e : Element => e.ref) (ancestorsFuel_mem d _ e x hx))

theorem appendChild_attached_only {d : Document} {p : Nat} {n : Element}
    (hn : n.ref ∉ d.refs) (h : n.ref ∈ (d.appendChild p n).refs) : p ∈ d.refs := by
  by_contra hp
  apply hn
  have hnil : (d.nodes.reverse.dropWhile fun e => !inSubtree d p e) = [] := by
    rw [List.dropWhile_eq_nil_iff]
    intro e he
    rw [inSubtree_false_of_not_mem hp e (List.mem_reverse.1 he)]
    rfl
  unfold Document.appendChild at h
  simp only [hnil, List.reverse_nil, List.isEmpty_nil, if_true] at h
  exact h

theorem placeTrigger_attached (fresh : Nat) (r : State × Document) (a : Element)
    (h1 : a.parent.isSome → a.ref ∈ r.2.refs) (h2 : a.parent = none → r.2.body ∈ r.2.refs) :
    fresh ∈ (placeTrigger fresh r a).document.refs := by
  unfold placeTrigger
  cases hp : a.parent with
  | none => exact appendChild_attaches (n := createButton fresh) (h2 hp)
  | some p => exact insertBefore_attaches (n := createButton fresh) (h1 (by rw [hp]; rfl))

theorem placeTrigger_attached_only (fresh : Nat) (r : State × Document) (a : Element)
    (hf : fresh ∉ r.2.refs) (h : fresh ∈ (placeTrigger fresh r a).document.refs) :
    (a.parent.isSome ∧ a.ref ∈ r.2.refs) ∨ (a.parent = none ∧ r.2.body ∈ r.2.refs) := by
  unfold placeTrigger at h
  cases hp : a.parent with
  | none =>
    rw [hp] at h
    exact Or.inr ⟨rfl, appendChild_attached_only (n := createButton fresh) hf h⟩
  | some p =>
    rw [hp] at h
    exact Or.inl ⟨rfl, insertBefore_attached_only (n := createButton fresh) hf h⟩

theorem afterRemove_none (a : Element) : a.afterRemove none = a := by
  simp [Element.afterRemove]

theorem afterRemove_self (a : Element) : (a.afterRemove (some a.ref)).parent = none ∧
    (a.afterRemove (some a.ref)).ref = a.ref := by
  simp [Element.afterRemove]

theorem afterRemove_other (a : Element) (b : Nat) (h : a.ref ≠ b) :
    a.afterRemove (some b) = a := by
  unfold Element.afterRemove
  rw [if_neg]
  intro hb
  exact h (Option.some.inj hb).symm

/-- C4 (as amended): in the ready state the controller holds a trigger when
the pass ends: the element just created, or the one held when the pass began.
That trigger is in the document when the pass ends if the condition
`Spec.triggerEndsAttached` holds when the pass begins, and, the created
element being a new object, only if it holds.  So a held trigger the page has
detached is not put back while the signature is unchanged, and a trigger
created next to an answer node that left the document with the old trigger is
not in the document. -/
theorem ready_pass_attaches_trigger (fresh : Nat) (st : State) (d : Document) (hr : ready d) :
    ∃ b a, (getChosenAnswerState d).alertEl = some a ∧
      (evaluateInjection fresh st d).state.button = some b ∧
      (b = fresh ∨ st.button = some b) ∧
      (Spec.triggerEndsAttached st d a → b ∈ (evaluateInjection fresh st d).document.refs) ∧
      (fresh ∉ d.refs → b ∈ (evaluateInjection fresh st d).document.refs →
        Spec.triggerEndsAttached st d a) := by
  obtain ⟨a, ha⟩ := isChosen_alertEl hr.1
  have hamem := alertEl_mem ha
  have haref : a.ref ∈ d.refs := List.mem_map_of_mem (fun e : Element => e.ref) hamem
  rw [evaluateInjection_ready_split fresh st d hr a ha]
  cases hb : st.button with
  | none =>
    have h2 : (afterSignatureCheck st d).1.button = none ∧ (afterSignatureCheck st d).2 = d := by
      by_cases hsig : st.lastQuestionSignature = passSignature d
      · rw [afterSignatureCheck_same hsig]; exact ⟨hb, rfl⟩
      · rw [afterSignatureCheck_changed_none hsig hb]; exact ⟨hb, rfl⟩
    rw [if_neg (by rw [h2.1]; simp), afterRemove_none]
    refine ⟨fresh, a, ha, (placeTrigger_button _ _ _).1, Or.inl rfl, ?_, ?_⟩
    · intro hc
      simp only [Spec.triggerEndsAttached, hb] at hc
      apply placeTrigger_attached
      · intro _; rw [h2.2]; exact haref
      · intro hp
        rw [h2.2]
        rcases hc with hc | hc
        · rw [hp] at hc; cases hc
        · exact hc
    · intro hf hin
      simp only [Spec.triggerEndsAttached, hb]
      rcases placeTrigger_attached_only fresh _ a (by rw [h2.2]; exact hf) hin with h | h
      · exact Or.inl h.1
      · exact Or.inr (by rw [h2.2] at h; exact h.2)
  | some b =>
    by_cases hsig : st.lastQuestionSignature = passSignature d
    · rw [afterSignatureCheck_same hsig]
      simp only [hb, Option.isSome_some, if_true]
      refine ⟨b, a, ha, rfl, Or.inr rfl, ?_, ?_⟩
      · intro hc
        simpa only [Spec.triggerEndsAttached, hb, if_pos hsig] using hc
      · intro _ hin
        simpa only [Spec.triggerEndsAttached, hb, if_pos hsig] using hin
    · rw [afterSignatureCheck_changed_some hsig hb]
      simp only [Option.isSome_none, Bool.false_eq_true, if_false]
      refine ⟨fresh, a, ha, (placeTrigger_button _ _ _).1, Or.inl rfl, ?_, ?_⟩
      · intro hc
        simp only [Spec.triggerEndsAttached, hb, if_neg hsig] at hc
        by_cases hab : a.ref = b
        · rw [if_pos (Or.inl hab)] at hc
          subst hab
          apply placeTrigger_attached
          · intro hp
            rw [(afterRemove_self a).1] at hp
            cases hp
          · intro _
            exact mem_refs_remove_iff.2 hc
        · rw [afterRemove_other a b hab]
          by_cases hp : a.parent = none
          · rw [if_pos (Or.inr hp)] at hc
            apply placeTrigger_attached
            · intro h; rw [hp] at h; cases h
            · intro _; exact mem_refs_remove_iff.2 hc
          · rw [if_neg (by tauto)] at hc
            apply placeTrigger_attached
            · intro _; exact mem_refs_remove_iff.2 hc
            · intro h; exact absurd h hp
      · intro hf hin
        simp only [Spec.triggerEndsAttached, hb, if_neg hsig]
        have hf1 : fresh ∉ (d.remove b).refs := not_mem_refs_remove hf
        by_cases hab : a.ref = b
        · rw [if_pos (Or.inl hab)]
          subst hab
          rcases placeTrigger_attached_only fresh _ _ hf1 hin with h | h
          · rw [(afterRemove_self a).1] at h
            cases h.1
          · exact mem_refs_remove_iff.1 h.2
        · rw [afterRemove_other a b hab] at hin
          rcases placeTrigger_attached_only fresh _ _ hf1 hin with h | h
          · rw [if_neg]
            · exact mem_refs_remove_iff.1 h.2
            · rintro (h1 | h1)
              · exact hab h1
              · rw [h1] at h; cases h.1
          · rw [if_pos (Or.inr h.1)]
            exact mem_refs_remove_iff.1 h.2

theorem ready_pass_attaches_trigger_witness :
    ready answeredDocument ∧
    ∃ b, (evaluateInjection 100 State.initial answeredDocument).state.button = some b ∧
      b ∈ (evaluateInjection 100 State.initial answeredDocument).document.refs := by
  refine ⟨by decide, ?_⟩
  obtain ⟨b, a, ha, hb, -, hsuff, -⟩ :=
    ready_pass_attaches_trigger 100 State.initial answeredDocument (by decide)
  have h5 : (getChosenAnswerState answeredDocument).alertEl =
      some (shown 5 (some 2) "div" [("class", "alert alert-success")] (List.replicate 80 120)) := by
    decide
  rw [h5] at ha
  have hae := Option.some.inj ha
  subst hae
  exact ⟨b, hb, hsuff (by decide)⟩

/-- C4 (as stated) fails: after a first pass has created the trigger 100 and
the page has detached it, a second pass in the ready state with the same
signature ends with the controller still holding that trigger and with no
engine-created element attached to the document. -/
theorem detached_trigger_not_restored :
    (Session.initial answeredDocument).admitsAll detachSession ∧
    ready answeredDocument ∧
    ((Session.initial answeredDocument).run detachSession).created = [100] ∧
    ((Session.initial answeredDocument).run detachSession).state.button = some 100 ∧
    ((Session.initial answeredDocument).run detachSession).attachedTriggers = [] ∧
    100 ∉ ((Session.initial answeredDocument).run detachSession).document.refs := by
  decide

/-- The last case of C4 (as amended) occurs.  The controller holds the trigger
100 and the page shows another question with the alert inside that trigger.
The pass is in the ready state and the signature has changed, so the trigger
100 leaves the document, and the alert with it; the new trigger 101 is put
before the alert, outside the document.  The controller holds 101 and no
trigger is in the document. -/
theorem trigger_follows_answer_out_of_document :
    ready nestedAnswerDocument ∧
    holding100.button = some 100 ∧
    holding100.lastQuestionSignature ≠ passSignature nestedAnswerDocument ∧
    (getChosenAnswerState nestedAnswerDocument).alertEl =
      some (shown 5 (some 100) "div" [("class", "alert alert-success")] (List.replicate 80 120)) ∧
    ¬ Spec.triggerEndsAttached holding100 nestedAnswerDocument
      (shown 5 (some 100) "div" [("class", "alert alert-success")] (List.replicate 80 120)) ∧
    (evaluateInjection 101 holding100 nestedAnswerDocument).state.button = some 101 ∧
    (evaluateInjection 101 holding100 nestedAnswerDocument).created = some 101 ∧
    (evaluateInjection 101 holding100 nestedAnswerDocument).document.refs = [0, 1, 2, 3, 4] := by
  decide

/-! ## Where the trigger goes -/

theorem eq_of_ref_eq {d : Document} (hnd : d.refs.Nodup) {x y : Element} (hx : x ∈ d.nodes)
    (hy : y ∈ d.nodes) (h : x.ref = y.ref) : x = y :=
  List.inj_on_of_nodup_map hnd hx hy h

theorem appendChild_spec (d : Document) (p : Nat) (n : Element) (h : p ∈ d.refs) :
    ∃ upTo after, d.nodes = upTo ++ after ∧
      (d.appendChild p n).nodes = upTo ++ { n with parent := some p } :: after ∧
      (∀ e ∈ after, inSubtree d p e = false) ∧
      (∃ last, upTo.getLast? = some last ∧ inSubtree d p last = true) := by
  obtain ⟨e, he, hr⟩ := List.mem_map.1 h
  have hne : (d.nodes.reverse.dropWhile fun e => !inSubtree d p e) ≠ [] := by
    intro hnil
    rw [List.dropWhile_eq_nil_iff] at hnil
    have := hnil e (List.mem_reverse.2 he)
    simp [inSubtree, hr] at this
  refine ⟨(d.nodes.reverse.dropWhile fun e => !inSubtree d p e).reverse,
    (d.nodes.reverse.takeWhile fun e => !inSubtree d p e).reverse, ?_, ?_, ?_, ?_⟩
  · rw [← List.reverse_append, List.takeWhile_append_dropWhile, List.reverse_reverse]
  · unfold Document.appendChild
    have : ((d.nodes.reverse.dropWhile fun e => !inSubtree d p e).reverse).isEmpty = false := by
      rw [isEmpty_eq_false_iff]
      simpa using hne
    simp only [this, Bool.false_eq_true, if_false]
  · intro x hx
    have := List.mem_takeWhile_imp (List.mem_reverse.1 hx)
    simpa using this
  · cases hdw : (d.nodes.reverse.dropWhile fun e => !inSubtree d p e) with
    | nil => exact absurd hdw hne
    | cons y ys =>
      refine ⟨y, by simp, ?_⟩
      have := List.head_dropWhile_not (fun e => !inSubtree d p e) d.nodes.reverse
        (by rw [hdw]; simp)
      simp only [hdw, List.head_cons, Bool.not_eq_true', Bool.not_eq_false] at this
      simpa using this

theorem removeButton_body (st : State) (d : Document) : (removeButton st d).2.body = d.body := by
  unfold removeButton
  cases st.button <;> rfl

theorem afterRemove_of_ne (a : Element) (held : Option Nat) (h : held ≠ some a.ref) :
    a.afterRemove held = a := by
  unfold Element.afterRemove
  rw [if_neg h]

theorem afterRemove_parent_none (a : Element) (held : Option Nat)
    (h : a.parent = none ∨ held = some a.ref) : (a.afterRemove held).parent = none := by
  unfold Element.afterRemove
  by_cases hh : held = some a.ref
  · rw [if_pos hh]
  · rw [if_neg hh]
    rcases h with h | h
    · exact h
    · exact absurd h hh

/-- A pass that creates a trigger is a ready pass; it holds no trigger once
its signature check is done, and the document is then as `removeButton`
leaves it. -/
theorem created_pass (fresh : Nat) (st : State) (d : Document) (c : Nat)
    (hc : (evaluateInjection fresh st d).created = some c) :
    ready d ∧ (st.button = none ∨ st.lastQuestionSignature ≠ passSignature d) ∧
      (afterSignatureCheck st d).1.button = none ∧
      (afterSignatureCheck st d).2 = (removeButton st d).2 := by
  have hr : ready d := by
    by_contra h
    rw [evaluateInjection_notReady fresh st d h] at hc
    cases hc
  obtain ⟨a, ha⟩ := isChosen_alertEl hr.1
  rw [evaluateInjection_ready_split fresh st d hr a ha] at hc
  refine ⟨hr, ?_⟩
  cases hb : st.button with
  | none =>
    refine ⟨Or.inl rfl, ?_⟩
    rw [removeButton_none st d hb]
    by_cases hsig : st.lastQuestionSignature = passSignature d
    · rw [afterSignatureCheck_same hsig]; exact ⟨hb, rfl⟩
    · rw [afterSignatureCheck_changed_none hsig hb]; exact ⟨hb, rfl⟩
  | some b =>
    by_cases hsig : st.lastQuestionSignature = passSignature d
    · rw [afterSignatureCheck_same hsig] at hc
      simp only [hb, Option.isSome_some, if_true] at hc
      cases hc
    · refine ⟨Or.inr hsig, ?_⟩
      rw [afterSignatureCheck_changed_some hsig hb, removeButton_some st d b hb]
      exact ⟨rfl, rfl⟩

/-- C9: whenever an evaluation pass creates a trigger, the pass is in the
ready state and holds no trigger once a held one has been removed for a
changed signature; the created element is the one held afterwards.  When the
answer node has a parent element at that moment (it has one and is not the
trigger just removed), the pass calls `insertBefore` on that parent with the
answer node as reference: in the document left by the removal the new element
is put right before the answer node in tree order, with the same parent, so
it is the immediately preceding sibling.  Otherwise the new element is
appended to the body: it comes right after the last element of the body's
subtree, with the body as parent.  On the example page (question text "What
is the first-line treatment for X?", a visible success alert of 80
characters, one result-styled option) `isChosen` is true and the trigger
lands right before the alert; and when the page then shows another question,
the next pass removes that trigger and puts a new one right before the
alert. -/
theorem trigger_placed_before_answer :
    (∀ (fresh : Nat) (st : State) (d : Document) (c : Nat),
      (evaluateInjection fresh st d).created = some c →
      ∃ a, (getChosenAnswerState d).alertEl = some a ∧ a ∈ d.nodes ∧ ready d ∧
        (st.button = none ∨ st.lastQuestionSignature ≠ passSignature d) ∧
        c = fresh ∧ (evaluateInjection fresh st d).state.button = some fresh ∧
        (∀ p, a.parent = some p → st.button ≠ some a.ref →
          (evaluateInjection fresh st d).document =
            (removeButton st d).2.insertBefore p (createButton fresh) a.ref ∧
          (d.refs.Nodup → (∀ b, st.button = some b → isDescendantOf d b a = false) →
            ∃ pre post, (removeButton st d).2.nodes = pre ++ a :: post ∧
              (evaluateInjection fresh st d).document.nodes =
                pre ++ { createButton fresh with parent := some p } :: a :: post)) ∧
        (a.parent = none ∨ st.button = some a.ref →
          (evaluateInjection fresh st d).document =
            (removeButton st d).2.appendChild d.body (createButton fresh) ∧
          (d.body ∈ (removeButton st d).2.refs →
            ∃ upTo after, (removeButton st d).2.nodes = upTo ++ after ∧
              (evaluateInjection fresh st d).document.nodes =
                upTo ++ { createButton fresh with parent := some d.body } :: after ∧
              (∀ e ∈ after, inSubtree (removeButton st d).2 d.body e = false) ∧
              (∃ last, upTo.getLast? = some last ∧
                inSubtree (removeButton st d).2 d.body last = true)))) ∧
    ((getChosenAnswerState answeredDocument).isChosen = true ∧
      (extractText (getChosenAnswerState answeredDocument).alertEl).length = 80 ∧
      (evaluateInjection 100 State.initial answeredDocument).document.nodes =
        answeredDocument.nodes.take 5 ++
          { createButton 100 with parent := some 2 } :: answeredDocument.nodes.drop 5 ∧
      (getChosenAnswerState answeredDocument).alertEl = answeredDocument.nodes.get? 5) ∧
    (holding100.button = some 100 ∧
      holding100.lastQuestionSignature ≠ passSignature (nextQuestionDocument [100]) ∧
      (evaluateInjection 101 holding100 (nextQuestionDocument [100])).created = some 101 ∧
      (evaluateInjection 101 holding100 (nextQuestionDocument [100])).document.nodes =
        (nextQuestionDocument []).nodes.take 5 ++
          { createButton 101 with parent := some 2 } :: (nextQuestionDocument []).nodes.drop 5 ∧
      (getChosenAnswerState (nextQuestionDocument [100])).alertEl =
        (nextQuestionDocument []).nodes.get? 5) := by
  refine ⟨?_, by decide, by decide⟩
  intro fresh st d c hc
  obtain ⟨hr, hcase, hnone, hdoc⟩ := created_pass fresh st d c hc
  obtain ⟨a, ha⟩ := isChosen_alertEl hr.1
  have hamem := alertEl_mem ha
  rw [evaluateInjection_ready_split fresh st d hr a ha, if_neg (by rw [hnone]; simp)] at hc ⊢
  have hcf : c = fresh := by
    rw [(placeTrigger_button _ _ _).2] at hc
    exact (Option.some.inj hc).symm
  refine ⟨a, ha, hamem, hr, hcase, hcf, (placeTrigger_button _ _ _).1, ?_, ?_⟩
  · intro p hp hne
    rw [afterRemove_of_ne a st.button hne]
    have hd : (placeTrigger fresh (afterSignatureCheck st d) a).document =
        (removeButton st d).2.insertBefore p (createButton fresh) a.ref := by
      unfold placeTrigger
      simp only [hp, hdoc]
    refine ⟨hd, ?_⟩
    intro hnd hout
    rw [hd]
    have ha1 : a ∈ (removeButton st d).2.nodes := by
      cases hb : st.button with
      | none => rw [removeButton_none st d hb]; exact hamem
      | some b =>
        rw [removeButton_some st d b hb]
        refine mem_remove_iff.2 ⟨hamem, ?_, hout b hb⟩
        intro h
        apply hne
        rw [hb, h]
    have hsub : ∀ x ∈ (removeButton st d).2.nodes, x ∈ d.nodes := by
      intro x hx
      cases hb : st.button with
      | none => rw [removeButton_none st d hb] at hx; exact hx
      | some b =>
        rw [removeButton_some st d b hb] at hx
        exact (mem_remove hx).1
    rcases insertBeforeNodes_spec p (createButton fresh) a.ref (removeButton st d).2.nodes with
      ⟨h1, -⟩ | ⟨pre, x, post, h1, h3, -, h4⟩
    · exact absurd rfl (h1 a ha1)
    · have hx : x ∈ (removeButton st d).2.nodes := by rw [h1]; simp
      have hxa : x = a := eq_of_ref_eq hnd (hsub x hx) hamem h3
      subst hxa
      exact ⟨pre, post, h1, h4⟩
  · intro hp
    have hpn := afterRemove_parent_none a st.button hp
    have hd : (placeTrigger fresh (afterSignatureCheck st d) (a.afterRemove st.button)).document =
        (removeButton st d).2.appendChild d.body (createButton fresh) := by
      unfold placeTrigger
      simp only [hpn, hdoc, removeButton_body]
    refine ⟨hd, ?_⟩
    intro hbody
    rw [hd]
    exact appendChild_spec (removeButton st d).2 d.body (createButton fresh) hbody

theorem trigger_placed_before_answer_witness :
    (evaluateInjection 101 holding100 (nextQuestionDocument [100])).created = some 101 ∧
    ready (nextQuestionDocument [100]) ∧
    (evaluateInjection 101 holding100 (nextQuestionDocument [100])).state.button = some 101 := by
  have hc : (evaluateInjection 101 holding100 (nextQuestionDocument [100])).created = some 101 := by
    decide
  obtain ⟨a, -, -, hr, -, -, hb, -⟩ :=
    trigger_placed_before_answer.1 101 holding100 (nextQuestionDocument [100]) 101 hc
  exact ⟨hc, hr, hb⟩

end Passmed2Anki
